import Mathlib

/-!
# Verification of the video2text repository against its specification

Shallow embedding of the pure/logical core of the `video2text` repository:

* `src/video2text/transcriber.py` — `TranscriptionResult.to_srt`, `to_vtt`,
  `_format_time`, `_format_time_vtt`, `OutputWriter.write_result`;
* `src/backend/services/subtitle_parser.py` — `SubtitleParser.parse_srt`;
* `src/video2text/api.py` — the job registry and its background tasks;
* `src/video2text/config.py` — `get_config` / `update_config`;
* `src/video2text/downloader.py` — `VideoDownloader._find_downloaded_file`;
* `src/downloader.py` — the minimal `download_video` file lookup;
* `src/backend/services/video_processor.py` — `VideoProcessor.process_video`
  error handling.

Python strings are modelled as `List Char`; file contents as the `List Char`
of the file text; float timestamps as `ℚ` (whisper timestamps are non-negative
and the claims use exactly representable values); fallible operations return
`Except`.  Machine-level float rounding is not modelled; `//`, `%` and `int`
on non-negative values are floor operations, which is what we embed.
-/

namespace V2T

/-! ## Python string primitives -/

/-- The characters Python's `str.strip()` and the regex class `\s` treat as
whitespace (ASCII part, which is all the repository's data uses):
space, tab, newline, carriage return, vertical tab, form feed. -/
def isSpaceC (c : Char) : Bool :=
  c == ' ' || c == '\t' || c == '\n' || c == '\r' || c == '\x0b' || c == '\x0c'

/-- Python `str.strip()`: remove leading and trailing whitespace. -/
def pyStripL (l : List Char) : List Char :=
  ((l.dropWhile isSpaceC).reverse.dropWhile isSpaceC).reverse

/-- `content.split('\n')` from `parse_srt`: split on every newline, keeping
empty pieces (`''.split('\n') == ['']`). -/
def splitNl : List Char → List (List Char)
  | [] => [[]]
  | c :: cs =>
    if c = '\n' then [] :: splitNl cs
    else
      match splitNl cs with
      | [] => [[c]]
      | h :: t => (c :: h) :: t

/-- `"\n".join(lines)`: the inverse rendering of a list of lines. -/
def joinNl : List (List Char) → List Char
  | [] => []
  | [l] => l
  | l :: l2 :: ls => l ++ '\n' :: joinNl (l2 :: ls)

/-- `' '.join(text_lines)` from `parse_srt`. -/
def joinSpace : List (List Char) → List Char
  | [] => []
  | [l] => l
  | l :: l2 :: ls => l ++ ' ' :: joinSpace (l2 :: ls)

/-! ## Timestamp formatting (`TranscriptionResult._format_time`) -/

/-- Floor of a rational, in executable form (equals `⌊q⌋`, see
`pyfloor_eq_floor`).  Mathlib's `⌊·⌋` and the `+ - * /` of `ℚ` are
`irreducible`, so the embedding uses `mkRat`-based forms that the kernel can
evaluate; each is proved equal to the textbook operation. -/
def pyfloor (q : ℚ) : ℤ := Rat.floor q

/-- `x / m` for a natural `m`, in executable form. -/
def qdivN (x : ℚ) (m : ℕ) : ℚ := mkRat x.num (x.den * m)

/-- `x * m` for a natural `m`, in executable form. -/
def qmulN (x : ℚ) (m : ℕ) : ℚ := mkRat (x.num * m) x.den

/-- `x - z` for an integer `z`, in executable form. -/
def qsubZ (x : ℚ) (z : ℤ) : ℚ := mkRat (x.num - z * x.den) x.den

/-- Python `x % m` for floats (embedded as `ℚ`) and a positive natural
modulus: result in `[0, m)`, i.e. `x - m * ⌊x / m⌋`
(see `pymod_eq`). -/
def pymod (x : ℚ) (m : ℕ) : ℚ := qsubZ x (m * pyfloor (qdivN x m))

/-- `hours = int(seconds // 3600)` (non-negative inputs in this program). -/
def hoursOf (t : ℚ) : ℕ := (pyfloor (qdivN t 3600)).toNat

/-- `minutes = int((seconds % 3600) // 60)`. -/
def minutesOf (t : ℚ) : ℕ := (pyfloor (qdivN (pymod t 3600) 60)).toNat

/-- `secs = int(seconds % 60)`. -/
def secsOf (t : ℚ) : ℕ := (pyfloor (pymod t 60)).toNat

/-- `millisecs = int((seconds % 1) * 1000)`. -/
def millisecsOf (t : ℚ) : ℕ := (pyfloor (qmulN (pymod t 1) 1000)).toNat

/-- Decimal digits of a natural number, as Python's `str(n)` / `f"{n}"`. -/
def natL (n : ℕ) : List Char := (Nat.repr n).data

/-- `f"{n:02d}"` for a natural number. -/
def pad2 (n : ℕ) : List Char := if n < 10 then '0' :: natL n else natL n

/-- `f"{n:03d}"` for a natural number. -/
def pad3 (n : ℕ) : List Char :=
  if n < 10 then '0' :: '0' :: natL n
  else if n < 100 then '0' :: natL n
  else natL n

/-- `TranscriptionResult._format_time`: `HH:MM:SS,mmm`. -/
def formatTime (t : ℚ) : List Char :=
  pad2 (hoursOf t) ++ ':' :: pad2 (minutesOf t) ++ ':' :: pad2 (secsOf t)
    ++ ',' :: pad3 (millisecsOf t)

/-- `TranscriptionResult._format_time_vtt`: `HH:MM:SS.mmm`. -/
def formatTimeVtt (t : ℚ) : List Char :=
  pad2 (hoursOf t) ++ ':' :: pad2 (minutesOf t) ++ ':' :: pad2 (secsOf t)
    ++ '.' :: pad3 (millisecsOf t)

/-! ## The transcription result and caption serializations -/

/-- One entry of `TranscriptionResult.segments`: a dict with keys
`start`, `end`, `text`. -/
structure Segment where
  start : ℚ
  stop : ℚ
  text : List Char
  deriving DecidableEq

/-- `TranscriptionResult` (`metadata` is modelled as opaque key/value pairs;
no claim depends on its contents). -/
structure TranscriptionResult where
  text : List Char
  segments : List Segment
  language : List Char
  metadata : List (List Char × List Char)
  deriving DecidableEq

/-- The timestamp line of one SRT cue: `f"{start_time} --> {end_time}"`. -/
def srtStamp (s : Segment) : List Char :=
  formatTime s.start ++ ' ' :: '-' :: '-' :: '>' :: ' ' :: formatTime s.stop

/-- The timestamp line of one VTT cue. -/
def vttStamp (s : Segment) : List Char :=
  formatTimeVtt s.start ++ ' ' :: '-' :: '-' :: '>' :: ' ' :: formatTimeVtt s.stop

/-- `enumerate(self.segments, 1)`. -/
def enumFrom (n : ℕ) : List Segment → List (ℕ × Segment)
  | [] => []
  | s :: ss => (n, s) :: enumFrom (n + 1) ss

/-- The four lines `to_srt` appends for cue number `i`:
index, timestamps, stripped text, blank separator. -/
def srtCueLines (i : ℕ) (s : Segment) : List (List Char) :=
  [natL i, srtStamp s, pyStripL s.text, []]

/-- The lines accumulated by `TranscriptionResult.to_srt`. -/
def toSrtLines (segs : List Segment) : List (List Char) :=
  (enumFrom 1 segs).flatMap fun p => srtCueLines p.1 p.2

/-- `TranscriptionResult.to_srt`, at the character level:
`"\n".join(srt_content)`. -/
def toSrtL (r : TranscriptionResult) : List Char :=
  joinNl (toSrtLines r.segments)

/-- `TranscriptionResult.to_srt`. -/
def toSrt (r : TranscriptionResult) : String :=
  (toSrtL r).asString

/-- The three lines `to_vtt` appends per cue (no cue number). -/
def vttCueLines (s : Segment) : List (List Char) :=
  [vttStamp s, pyStripL s.text, []]

/-- The lines accumulated by `TranscriptionResult.to_vtt`, starting from
`["WEBVTT", ""]`. -/
def toVttLines (segs : List Segment) : List (List Char) :=
  "WEBVTT".data :: [] :: segs.flatMap vttCueLines

/-- `TranscriptionResult.to_vtt`, at the character level. -/
def toVttL (r : TranscriptionResult) : List Char :=
  joinNl (toVttLines r.segments)

/-- `TranscriptionResult.to_vtt`. -/
def toVtt (r : TranscriptionResult) : String :=
  (toVttL r).asString

/-! ## The subtitle parser (`SubtitleParser.parse_srt`)

`parse_srt` reads the file (encoding detection is I/O and is not part of the
embedding), splits the content on newlines, walks the lines skipping blank
lines, cue-number lines (together with the line that follows them) and
timestamp lines, joins the surviving lines with spaces, then strips HTML
tags, brace-delimited codes and normalizes whitespace. -/

/-- `re.match(r'^\d+$', line)`: a non-empty all-digits line. -/
def isDigitsL (l : List Char) : Bool := !l.isEmpty && l.all (·.isDigit)

/-- `re.match(r'^\d{2}:\d{2}:\d{2},\d{3} --> \d{2}:\d{2}:\d{2},\d{3}$', line)`. -/
def isTimestampL : List Char → Bool
  | [h1, h2, c1, m1, m2, c2, s1, s2, k1, x1, x2, x3, sp1, d1, d2, g1, sp2,
     h3, h4, c3, m3, m4, c4, s3, s4, k2, x4, x5, x6] =>
    h1.isDigit && h2.isDigit && c1 == ':' && m1.isDigit && m2.isDigit && c2 == ':' &&
    s1.isDigit && s2.isDigit && k1 == ',' && x1.isDigit && x2.isDigit && x3.isDigit &&
    sp1 == ' ' && d1 == '-' && d2 == '-' && g1 == '>' && sp2 == ' ' &&
    h3.isDigit && h4.isDigit && c3 == ':' && m3.isDigit && m4.isDigit && c4 == ':' &&
    s3.isDigit && s4.isDigit && k2 == ',' && x4.isDigit && x5.isDigit && x6.isDigit
  | _ => false

/-- The line-scanning loop of `parse_srt`: strip each line; skip empty lines;
on an all-digits line skip it and the following (timestamp) line; skip
timestamp-shaped lines; keep everything else. -/
def extractTextLines : List (List Char) → List (List Char)
  | [] => []
  | [l] =>
    let s := pyStripL l
    if s = [] then []
    else if isDigitsL s then []
    else if isTimestampL s then []
    else [s]
  | l :: l2 :: rest =>
    let s := pyStripL l
    if s = [] then extractTextLines (l2 :: rest)
    else if isDigitsL s then extractTextLines rest
    else if isTimestampL s then extractTextLines (l2 :: rest)
    else s :: extractTextLines (l2 :: rest)

/-- The opening curly brace (written via its code point to keep brace
characters out of the source text). -/
def lbrace : Char := Char.ofNat 123

/-- The closing curly brace. -/
def rbrace : Char := Char.ofNat 125

/-- Worker for generic one-pass removal of `open [^close]+ close` patterns
(shared shape of the two `re.sub` calls in `parse_srt`).  The fuel is an
upper bound on the remaining input length; every step consumes at least one
character, so `l.length` fuel is always enough (see `removePat`). -/
def removePatAux (op cl : Char) : ℕ → List Char → List Char
  | 0, l => l
  | _ + 1, [] => []
  | fuel + 1, c :: cs =>
    if c = op then
      match cs.dropWhile (fun x => x != cl), cs.takeWhile (fun x => x != cl) with
      | _ :: r, _ :: _ => removePatAux op cl fuel r
      | _, _ => c :: removePatAux op cl fuel cs
    else c :: removePatAux op cl fuel cs

/-- One-pass, left-to-right, non-overlapping removal of every complete
`op …nonempty… cl` bracket pattern, exactly as `re.sub` matches
`<[^>]+>` (and the brace analogue): at an opening char, the match extends
to the first closing char, requires at least one inner char, and scanning
resumes after it; an unmatched opening char is kept. -/
def removePat (op cl : Char) (l : List Char) : List Char :=
  removePatAux op cl l.length l

/-- `re.sub(r'<[^>]+>', '', text)`. -/
def removeTags (l : List Char) : List Char := removePat '<' '>' l

/-- `re.sub` of the brace pattern: remove every complete, non-empty
brace-delimited code. -/
def removeBraces (l : List Char) : List Char := removePat lbrace rbrace l

/-- Worker for `re.sub(r'\s+', ' ', text)`: the flag records whether the
previous character was whitespace (i.e. we are inside a run that has already
emitted its single space). -/
def collapseAux : Bool → List Char → List Char
  | _, [] => []
  | prevSpace, c :: cs =>
    if isSpaceC c then
      if prevSpace then collapseAux true cs
      else ' ' :: collapseAux true cs
    else c :: collapseAux false cs

/-- `re.sub(r'\s+', ' ', text)`: collapse every whitespace run to one space. -/
def collapseWs (l : List Char) : List Char := collapseAux false l

/-- `SubtitleParser.parse_srt` on file content, at the character level. -/
def parseSrtL (content : List Char) : List Char :=
  pyStripL (collapseWs (removeBraces (removeTags
    (joinSpace (extractTextLines (splitNl content))))))

/-- `SubtitleParser.parse_srt` on file content. -/
def parseSrt (content : String) : String := (parseSrtL content.data).asString

/-! ## Well-formed SRT files -/

/-- One numbered cue of a caption file: an index line, a timestamp line and
one or more text lines (a blank separator is appended when rendering). -/
structure SrtCue where
  numLine : List Char
  tsLine : List Char
  body : List (List Char)
  deriving DecidableEq

/-- The lines a cue contributes to the file. -/
def cueLines (c : SrtCue) : List (List Char) := c.numLine :: c.tsLine :: (c.body ++ [[]])

/-- All lines of a caption file. -/
def renderLines (cues : List SrtCue) : List (List Char) := cues.flatMap cueLines

/-- The text of a caption file with the given cues. -/
def renderFile (cues : List SrtCue) : List Char := joinNl (renderLines cues)

/-- The conclusion of spec property C3, formalized: the concatenation
(space-joined, as the parser joins lines) of the stripped cue text bodies,
with markup tags and brace-delimited codes stripped and whitespace
collapsed. -/
def bodiesText (cues : List SrtCue) : List Char :=
  pyStripL (collapseWs (removeBraces (removeTags
    (joinSpace (cues.flatMap fun c => c.body.map pyStripL)))))

/-- Well-formedness of one text line of a cue body: a single line (no
newline), non-blank, and neither shaped like a cue number nor like a
timestamp line. The last three conditions are the amendment claim C3
requires. -/
def bodyLineWF (b : List Char) : Prop :=
  '\n' ∉ b ∧ pyStripL b ≠ [] ∧ isDigitsL (pyStripL b) = false ∧
    isTimestampL (pyStripL b) = false

instance (b : List Char) : Decidable (bodyLineWF b) := by
  unfold bodyLineWF; infer_instance

/-- Well-formedness of a cue: a numeric index line, a timestamp line, and a
non-empty body of well-formed text lines. -/
def cueWF (c : SrtCue) : Prop :=
  '\n' ∉ c.numLine ∧ isDigitsL (pyStripL c.numLine) = true ∧
  '\n' ∉ c.tsLine ∧ isTimestampL c.tsLine = true ∧
  c.body ≠ [] ∧ ∀ b ∈ c.body, bodyLineWF b

instance (c : SrtCue) : Decidable (cueWF c) := by
  unfold cueWF; infer_instance

/-- A well-formed cue (in the sense of claim C3 as stated) whose first text
line happens to consist only of digits. -/
def c3bad : SrtCue :=
  { numLine := "1".data
    tsLine := "00:00:00,000 --> 00:00:05,000".data
    body := ["42".data, "is the answer".data] }

/-- A concrete well-formed two-cue caption file (used as witness input). -/
def c3good : List SrtCue :=
  [ { numLine := "1".data
      tsLine := "00:00:00,000 --> 00:00:05,000".data
      body := ["Hello there".data] }
  , { numLine := "2".data
      tsLine := "00:00:05,000 --> 00:00:10,000".data
      body := ["General <i>Kenobi</i>".data, "you are bold".data] } ]

/-! ## Output formats and written content (`OutputWriter.write_result`) -/

/-- `OutputFormat` from `config.py`. -/
inductive OutputFormat where
  | txt
  | srt
  | json
  | vtt
  deriving DecidableEq

/-- `format.value`. -/
def extOf : OutputFormat → List Char
  | .txt => "txt".data
  | .srt => "srt".data
  | .json => "json".data
  | .vtt => "vtt".data

/-- Models `json.dumps(result.to_dict(), indent=2, ensure_ascii=False)` as a
structured textual record of the full result (text, segments, language,
metadata).  No claim constrains the exact JSON text, only that the content
is a function of the result and the format alone. -/
def jsonDump (r : TranscriptionResult) : List Char :=
  "text=".data ++ r.text ++ "; language=".data ++ r.language
    ++ "; segments=".data
    ++ (r.segments.flatMap fun s => srtStamp s ++ ':' :: s.text ++ [';'])
    ++ "; metadata=".data
    ++ (r.metadata.flatMap fun p => p.1 ++ '=' :: p.2 ++ [';'])

/-- The `content` computed by `OutputWriter.write_result` for each format
(this is exactly what is written to the file, hence what a reader of the
file gets back). -/
def contentFor (r : TranscriptionResult) : OutputFormat → List Char
  | .txt => r.text
  | .srt => toSrtL r
  | .json => jsonDump r
  | .vtt => toVttL r

/-! ## The job registry (`api.py`: `transcription_jobs` and its writers)

The registry is the process-wide dict `transcription_jobs`.  Its writers are
the two submission endpoints (insert a fresh `pending` entry) and the two
background tasks, each of which runs linearly: set `processing`, then on
success set `completed` (with result payload and download link) or on any
exception set `failed`.  `Step` is the transition relation generated by
these operations, with each operation guarded by the status its position in
the task's control flow guarantees. -/

/-- The four client-visible job states. -/
inductive JobStatus where
  | pending
  | processing
  | completed
  | failed
  deriving DecidableEq

/-- Progress order of states: `pending` before `processing` before the two
terminal states. -/
def statusRank : JobStatus → ℕ
  | .pending => 0
  | .processing => 1
  | .completed => 2
  | .failed => 2

/-- One registry entry, as initialized by `transcribe_url` /
`transcribe_file` (timestamps are abstract ticks). -/
structure JobEntry where
  status : JobStatus
  message : String
  createdAt : ℕ
  completedAt : Option ℕ
  result : Option TranscriptionResult
  downloadUrl : Option String
  deriving DecidableEq

/-- The in-memory job dict, keyed by job id. -/
def Registry := String → Option JobEntry

/-- The registry at process start. -/
def emptyRegistry : Registry := fun _ => none

/-- `transcription_jobs[job_id] = {status: "pending", ...}` (api.py
lines 288–296 / 342–350). -/
def submitJob (reg : Registry) (id : String) (t : ℕ) (msg : String) : Registry :=
  fun j =>
    if j = id then
      some { status := .pending, message := msg, createdAt := t,
             completedAt := none, result := none, downloadUrl := none }
    else reg j

/-- In-place mutation of one entry. -/
def updateEntry (reg : Registry) (id : String) (f : JobEntry → JobEntry) : Registry :=
  fun j => if j = id then (reg j).map f else reg j

/-- The first statements of the background tasks: status `processing` plus a
progress message. -/
def setProcessing (reg : Registry) (id : String) (msg : String) : Registry :=
  updateEntry reg id fun e => { e with status := .processing, message := msg }

/-- The success epilogue of the background tasks: status `completed`,
result payload, and download link `/download/{job_id}`. -/
def completeJob (reg : Registry) (id : String) (t : ℕ)
    (r : TranscriptionResult) : Registry :=
  updateEntry reg id fun e =>
    { e with status := .completed,
             message := "Transcription completed successfully",
             completedAt := some t, result := some r,
             downloadUrl := some ("/download/" ++ id) }

/-- The `except` clause of the background tasks: status `failed` with the
exception text as message; result and link are left as they were. -/
def failJob (reg : Registry) (id : String) (t : ℕ) (msg : String) : Registry :=
  updateEntry reg id fun e =>
    { e with status := .failed, message := msg, completedAt := some t }

/-- The transition relation generated by the registry operations, each
guarded by the status that the program's control flow guarantees at the
point of the operation (a fresh uuid for submission; the task runs once,
linearly). -/
inductive Step : Registry → Registry → Prop where
  | submit (reg : Registry) (id : String) (t : ℕ) (msg : String) :
      reg id = none → Step reg (submitJob reg id t msg)
  | start (reg : Registry) (id : String) (e : JobEntry) (msg : String) :
      reg id = some e → e.status = .pending →
      Step reg (setProcessing reg id msg)
  | complete (reg : Registry) (id : String) (e : JobEntry) (t : ℕ)
      (r : TranscriptionResult) :
      reg id = some e → e.status = .processing →
      Step reg (completeJob reg id t r)
  | fail (reg : Registry) (id : String) (e : JobEntry) (t : ℕ) (msg : String) :
      reg id = some e → e.status = .processing →
      Step reg (failJob reg id t msg)

/-- A registry state the process can actually be in. -/
def Reachable (reg : Registry) : Prop :=
  Relation.ReflTransGen Step emptyRegistry reg

/-- The result/link invariant of claim C8. -/
def RegInv (s : Registry) : Prop :=
  ∀ i e, s i = some e →
    (e.status = .completed → e.result.isSome ∧ e.downloadUrl.isSome) ∧
    (e.status ≠ .completed → e.result = none ∧ e.downloadUrl = none)

/-- `process_url_transcription` with the transcription-and-write part
abstracted as an outcome: the task body never re-raises — it returns the
new registry in both branches (api.py lines 426–460). -/
def runUrlJob (reg : Registry) (id : String) (t : ℕ)
    (outcome : Except String TranscriptionResult) : Registry :=
  let reg1 := setProcessing reg id "Downloading and transcribing..."
  match outcome with
  | .ok r => completeJob reg1 id t r
  | .error e => failJob reg1 id t e

/-- File-system effects of the minimal CLI variant
(`backend/services/video_processor.py`). -/
inductive FsOp where
  | writeFile (path content : String)
  | removeFile (path : String)
  deriving DecidableEq

/-- `VideoProcessor._save_result`. -/
def saveResult (jobId text : String) : FsOp :=
  .writeFile ("results/" ++ jobId ++ ".txt") text

/-- `VideoProcessor._save_error`. -/
def saveError (jobId err : String) : FsOp :=
  .writeFile ("results/" ++ jobId ++ ".error") err

/-- `VideoProcessor.process_video` with `_process_video_file` abstracted as
an outcome: save result or error file, then clean up the video in the
`finally` block; exceptions are caught, never re-raised. -/
def processVideo (jobId videoPath : String)
    (outcome : Except String String) : List FsOp :=
  (match outcome with
   | .ok text => [saveResult jobId text]
   | .error e => [saveError jobId e]) ++ [.removeFile videoPath]

/-! ## Locating the downloaded file
(`VideoDownloader._find_downloaded_file` and the minimal `download_video`)

The output directory is modelled as a list of regular files with creation
times; `os.path.exists(join(dir, name))` is membership of `name`,
`os.listdir` is the list in iteration order, `os.path.getctime` is the
recorded tick. -/

/-- The known media extensions of `_find_downloaded_file`. -/
def mediaExts : List String := [".mp4", ".mkv", ".avi", ".webm", ".mov"]

/-- Python `name.endswith(ext)`. -/
def strEndsWith (s suffix : String) : Bool := suffix.data.isSuffixOf s.data

/-- Python `name.startswith(p)`. -/
def strStartsWith (s p : String) : Bool := p.data.isPrefixOf s.data

/-- `any(file.endswith(ext) for ext in extensions)`. -/
def hasMediaExt (name : String) : Bool := mediaExts.any fun e => strEndsWith name e

/-- Python `s.lower()` (ASCII). -/
def lowerS (s : String) : String := ⟨s.data.map Char.toLower⟩

/-- Python `needle in hay` for strings: substring containment. -/
def containsSub : List Char → List Char → Bool
  | needle, [] => needle.isPrefixOf []
  | needle, c :: t => needle.isPrefixOf (c :: t) || containsSub needle t

/-- `os.path.join` for a relative file name. -/
def pathJoin (dir name : String) : String := dir ++ "/" ++ name

/-- Phase 1: for each extension in order, try the exact name
`f"{title}{ext}"`. -/
def findExact (names : List String) (title : String) : Option String :=
  mediaExts.findSome? fun e =>
    if names.contains (title ++ e) then some (title ++ e) else none

/-- Phase 2: first listed file with a known media extension whose lowercase
name contains the lowercase title. -/
def findFuzzy (names : List String) (title : String) : Option String :=
  names.find? fun f =>
    hasMediaExt f && containsSub (lowerS title).data (lowerS f).data

/-- The files of the directory with a known media extension. -/
def mediaFiles (d : List (String × ℕ)) : List (String × ℕ) :=
  d.filter fun e => hasMediaExt e.1

/-- `max(files, key=getctime)`: first file with maximal creation time. -/
def maxByCtime : List (String × ℕ) → Option (String × ℕ)
  | [] => none
  | x :: xs => some (xs.foldl (fun b y => if y.2 > b.2 then y else b) x)

/-- `VideoDownloader._find_downloaded_file`: exact match, then fuzzy match,
then most recent media file, else `FileNotFoundError`. -/
def findDownloadedFile (d : List (String × ℕ)) (outputPath title : String) :
    Except String String :=
  let names := d.map Prod.fst
  match findExact names title with
  | some n => .ok (pathJoin outputPath n)
  | none =>
    match findFuzzy names title with
    | some n => .ok (pathJoin outputPath n)
    | none =>
      match maxByCtime (mediaFiles d) with
      | some e => .ok (pathJoin outputPath e.1)
      | none => .error ("Downloaded file not found in " ++ outputPath)

/-- The minimal CLI downloader's lookup (`src/downloader.py`): the first
directory entry whose name starts with `temp_video.`, else
`FileNotFoundError`. -/
def downloadVideoFind (names : List String) : Except String String :=
  match names.find? (fun n => strStartsWith n "temp_video.") with
  | some n => .ok n
  | none => .error "Video file not found after download."

/-- A concrete directory listing (witness data). -/
def c6dir : List (String × ℕ) := [("readme.txt", 5), ("video.mp4", 3)]

/-! ## Configuration (`config.py`) -/

/-- `WhisperModel` from `config.py`. -/
inductive WhisperModel where
  | tiny
  | base
  | small
  | medium
  | large
  | largeV2
  | largeV3
  deriving DecidableEq

/-- `TranscriptionConfig`. -/
structure TranscriptionConfig where
  model : WhisperModel
  language : Option String
  outputFormat : OutputFormat
  forceCpu : Bool
  temperature : ℚ
  beamSize : ℕ
  bestOf : ℕ
  patience : ℚ
  deriving DecidableEq

/-- `DownloadConfig`. -/
structure DownloadConfig where
  outputDir : String
  audioFormat : String
  audioQuality : String
  maxFilesize : Option String
  proxy : Option String
  deriving DecidableEq

/-- `AppConfig` (the directory-creation side effect of `__init__` is I/O and
not modelled). -/
structure AppConfig where
  transcription : TranscriptionConfig
  download : DownloadConfig
  tempDir : String
  logLevel : String
  maxWorkers : ℕ
  deriving DecidableEq

/-- The keyword arguments of one `update_config(**kwargs)` call: each
top-level option either named with a new value or absent. -/
structure ConfigUpdate where
  transcription : Option TranscriptionConfig
  download : Option DownloadConfig
  tempDir : Option String
  logLevel : Option String
  maxWorkers : Option ℕ
  deriving DecidableEq

/-- `update_config`: `config = AppConfig(**{**config.dict(), **kwargs})` —
a brand-new object in which every named option takes its new value and
every other option keeps the value from the old object's dict. -/
def updateConfig (c : AppConfig) (u : ConfigUpdate) : AppConfig where
  transcription := u.transcription.getD c.transcription
  download := u.download.getD c.download
  tempDir := u.tempDir.getD c.tempDir
  logLevel := u.logLevel.getD c.logLevel
  maxWorkers := u.maxWorkers.getD c.maxWorkers

/-- `get_config`: return the current global instance. -/
def getConfig (c : AppConfig) : AppConfig := c

/-- A concrete configuration (witness data). -/
def sampleConfig : AppConfig :=
  { transcription :=
      { model := .base, language := none, outputFormat := .txt,
        forceCpu := false, temperature := 0, beamSize := 5, bestOf := 5,
        patience := 1 }
    download :=
      { outputDir := "./downloads", audioFormat := "mp3",
        audioQuality := "192", maxFilesize := none, proxy := none }
    tempDir := "./temp"
    logLevel := "INFO"
    maxWorkers := 4 }

/-- A concrete update naming `temp_dir` and `max_workers` (witness data). -/
def sampleUpdate : ConfigUpdate :=
  { transcription := none, download := none, tempDir := some "./newtemp",
    logLevel := none, maxWorkers := some 8 }

/-- The entry created by submitting job `"j"` at tick 0 (witness data). -/
def jobEntryPending : JobEntry :=
  { status := .pending, message := "Job created", createdAt := 0,
    completedAt := none, result := none, downloadUrl := none }

/-- The same entry after the background task has started. -/
def jobEntryProcessing : JobEntry :=
  { jobEntryPending with
      status := .processing
      message := "Downloading and transcribing..." }

/-- The registry after submitting job `"j"`. -/
def jobS1 : Registry := submitJob emptyRegistry "j" 0 "Job created"

/-- The registry after the background task of `"j"` has started. -/
def jobS2 : Registry := setProcessing jobS1 "j" "Downloading and transcribing..."

/-- The transcription result of claim C2:
segments `[(0.0, 5.0, "Hello"), (5.0, 10.0, "World")]`. -/
def helloWorldResult : TranscriptionResult :=
  { text := "Hello World".data
    segments := [⟨0, 5, "Hello".data⟩, ⟨5, 10, "World".data⟩]
    language := "en".data
    metadata := [] }

/-! ## Timestamps as milliseconds, and clean segment texts (claim C4) -/

/-- The total number of milliseconds encoded by the four printed fields of a
formatted timestamp (`HH`, `MM`, `SS`, `mmm`).  For `0 ≤ t` this equals
`⌊1000 * t⌋` (`encodedMs_eq`). -/
def encodedMs (t : ℚ) : ℕ :=
  3600000 * hoursOf t + 60000 * minutesOf t + 1000 * secsOf t + millisecsOf t

/-- No two adjacent whitespace characters (so `re.sub(r'\s+', ' ', ·)`
leaves the list unchanged). -/
@[reducible] def noSpaceRun (l : List Char) : Prop :=
  List.Chain' (fun a b => ¬(isSpaceC a = true ∧ isSpaceC b = true)) l

/-- Executable decision procedure for `noSpaceRun` (Mathlib's `Chain'`
instance does not reduce in the kernel). -/
instance noSpaceRunDec : (l : List Char) → Decidable (noSpaceRun l)
  | [] => .isTrue List.chain'_nil
  | [_] => .isTrue (List.chain'_singleton _)
  | _ :: b :: t =>
    haveI := noSpaceRunDec (b :: t)
    decidable_of_iff _ (List.chain'_cons (l := t)).symm

/-- A segment whose stripped text survives the parser's scanning and
clean-up untouched: non-blank, not shaped like a cue number or a timestamp
line, on one line, without markup openers, with no whitespace other than
single spaces. -/
def SegClean (s : Segment) : Prop :=
  pyStripL s.text ≠ [] ∧
  isDigitsL (pyStripL s.text) = false ∧
  isTimestampL (pyStripL s.text) = false ∧
  (∀ c ∈ pyStripL s.text,
    c ≠ '\n' ∧ c ≠ '<' ∧ c ≠ lbrace ∧ (isSpaceC c = true → c = ' ')) ∧
  noSpaceRun (pyStripL s.text)

instance (s : Segment) : Decidable (SegClean s) :=
  inferInstanceAs (Decidable (pyStripL s.text ≠ [] ∧
    isDigitsL (pyStripL s.text) = false ∧
    isTimestampL (pyStripL s.text) = false ∧
    (∀ c ∈ pyStripL s.text,
      c ≠ '\n' ∧ c ≠ '<' ∧ c ≠ lbrace ∧ (isSpaceC c = true → c = ' ')) ∧
    noSpaceRun (pyStripL s.text)))

/-- The cue that `to_srt` renders for the enumerated segment `p`. -/
def srtCueOf (p : ℕ × Segment) : SrtCue :=
  { numLine := natL p.1, tsLine := srtStamp p.2, body := [pyStripL p.2.text] }

/-- All cues that `to_srt` renders for a segment list. -/
def srtCuesOf (segs : List Segment) : List SrtCue :=
  (enumFrom 1 segs).map srtCueOf

/-- Replace the SRT millisecond separator by the VTT one. -/
def commaToDot (c : Char) : Char := if c = ',' then '.' else c

/-- Replace the VTT millisecond separator by the SRT one (the direction used
by claim C7 as stated: turn VTT text back into SRT text). -/
def dotToComma (c : Char) : Char := if c = '.' then ',' else c

/-- Claim C7 as stated, applied to a result: erase the `WEBVTT` header (the
first two lines, eight characters) from the VTT output and replace the
timestamp punctuation. -/
def vttHeaderErased (r : TranscriptionResult) : List Char :=
  ((toVttL r).drop 8).map dotToComma

/-! ## The output path logic of `OutputWriter.write_result` (claim C10)

`write_result` wraps the caller's `output_path` in a `pathlib.Path`, appends
`.{format.value}` via `Path.with_suffix` when `Path.suffix` is empty, and
writes `content` (a function of the result and the format alone) to the
resulting path.  We embed the relevant POSIX `pathlib` semantics: parsing
drops empty components and `.` components; `name` is the last component (or
empty); `suffix` is `name[i:]` for `i = name.rfind('.')` when
`0 < i < len(name) - 1`, else empty; `with_suffix` raises `ValueError` on an
empty name and otherwise replaces the (here empty) old suffix. -/

def splitSlash : List Char → List (List Char)
  | [] => [[]]
  | c :: rest =>
    let r := splitSlash rest
    if c = '/' then [] :: r
    else match r with
      | [] => [[c]]
      | l :: ls => (c :: l) :: ls

def isAbsL (s : List Char) : Bool :=
  match s with
  | [] => false
  | c :: _ => c = '/'

def pathParts (s : List Char) : List (List Char) :=
  (splitSlash s).filter fun p => decide (p ≠ [] ∧ p ≠ ['.'])

/-- A parsed POSIX `pathlib.PurePath`: whether it is rooted, and its
non-empty, non-`.` components in order. -/
structure PyPath where
  absR : Bool
  parts : List (List Char)
deriving DecidableEq

def parsePath (s : List Char) : PyPath := ⟨isAbsL s, pathParts s⟩

/-- `Path.name`: the last component, or empty when there is none. -/
def pyName (p : PyPath) : List Char := p.parts.getLast?.getD []

/-- Index of the last `'.'` in a name (`str.rfind`), as an `Option`. -/
def rfindDot : List Char → Option ℕ
  | [] => none
  | c :: rest =>
    match rfindDot rest with
    | some i => some (i + 1)
    | none => if c = '.' then some 0 else none

/-- `Path.suffix` of a name: `name[i:]` for `i = name.rfind('.')` when
`0 < i < len(name) - 1`, else empty (leading dots and a sole trailing dot
give no suffix). -/
def pySuffix (name : List Char) : List Char :=
  match rfindDot name with
  | none => []
  | some i => if 0 < i ∧ i < name.length - 1 then name.drop i else []

/-- `Path.with_suffix`: raises `ValueError` when the path has an empty name;
otherwise strips the old suffix from the name and appends the new one. -/
def withSuffix (p : PyPath) (suf : List Char) : Except (List Char) PyPath :=
  if pyName p = [] then Except.error ("with_suffix: empty name".data)
  else
    Except.ok ⟨p.absR, p.parts.dropLast ++
      [(pyName p).take ((pyName p).length - (pySuffix (pyName p)).length) ++ suf]⟩

def joinSlash : List (List Char) → List Char
  | [] => []
  | [l] => l
  | l :: l2 :: rest => l ++ '/' :: joinSlash (l2 :: rest)

/-- `str(Path(...))`: the normalized rendering (a bare relative path with no
components prints as `.`). -/
def renderPath (p : PyPath) : List Char :=
  if p.absR then '/' :: joinSlash p.parts
  else
    match p.parts with
    | [] => ['.']
    | _ :: _ => joinSlash p.parts

/-- `OutputWriter.write_result`: parse the output path, append the format's
extension when the path's suffix is empty (propagating the `ValueError` of
`with_suffix` on an empty name), and return the final path together with the
written content. -/
def writeResult (r : TranscriptionResult) (s : List Char) (fmt : OutputFormat) :
    Except (List Char) (List Char × List Char) :=
  if pySuffix (pyName (parsePath s)) = [] then
    match withSuffix (parsePath s) ('.' :: extOf fmt) with
    | Except.error e => Except.error e
    | Except.ok p2 => Except.ok (renderPath p2, contentFor r fmt)
  else
    Except.ok (renderPath (parsePath s), contentFor r fmt)

/-! ## Helper lemmas -/

theorem pyfloor_eq_floor (q : ℚ) : pyfloor q = ⌊q⌋ := by
  rw [pyfloor, Rat.floor_def, Rat.floor_def']

theorem qdivN_eq (x : ℚ) (m : ℕ) : qdivN x m = x / m := by
  rw [qdivN, Rat.mkRat_eq_divInt, Rat.divInt_eq_div]
  push_cast
  rw [div_mul_eq_div_div, Rat.num_div_den]

theorem qmulN_eq (x : ℚ) (m : ℕ) : qmulN x m = x * m := by
  have hd : (x.den : ℚ) ≠ 0 := by exact_mod_cast x.den_ne_zero
  have hx : (x.num : ℚ) = x * x.den := (div_eq_iff hd).mp (Rat.num_div_den x)
  rw [qmulN, Rat.mkRat_eq_divInt, Rat.divInt_eq_div]
  push_cast
  rw [div_eq_iff hd, hx]
  ring

theorem qsubZ_eq (x : ℚ) (z : ℤ) : qsubZ x z = x - z := by
  have hd : (x.den : ℚ) ≠ 0 := by exact_mod_cast x.den_ne_zero
  have hx : (x.num : ℚ) = x * x.den := (div_eq_iff hd).mp (Rat.num_div_den x)
  rw [qsubZ, Rat.mkRat_eq_divInt, Rat.divInt_eq_div]
  push_cast
  rw [div_eq_iff hd, hx]
  ring

theorem pymod_eq (x : ℚ) (m : ℕ) : pymod x m = x - m * ⌊x / (m : ℚ)⌋ := by
  rw [pymod, qsubZ_eq, qdivN_eq, pyfloor_eq_floor]
  push_cast
  ring

/-! ### Arithmetic of the printed time fields -/

theorem pymod_nonneg (x : ℚ) (m : ℕ) (hm : (0 : ℚ) < m) : 0 ≤ pymod x m := by
  rw [pymod_eq]
  have h := Int.sub_floor_div_mul_nonneg x hm
  calc (0 : ℚ) ≤ x - ⌊x / m⌋ * m := h
    _ = x - m * ⌊x / (m : ℚ)⌋ := by ring

theorem pymod_lt (x : ℚ) (m : ℕ) (hm : (0 : ℚ) < m) : pymod x m < m := by
  rw [pymod_eq]
  have h := Int.sub_floor_div_mul_lt x hm
  calc x - m * ⌊x / (m : ℚ)⌋ = x - ⌊x / m⌋ * m := by ring
    _ < m := h

theorem hoursOf_cast (t : ℚ) (h : 0 ≤ t) : (hoursOf t : ℤ) = ⌊t / 3600⌋ := by
  rw [hoursOf, pyfloor_eq_floor, qdivN_eq]
  exact Int.toNat_of_nonneg (Int.floor_nonneg.mpr (by positivity))

theorem minutesOf_cast (t : ℚ) :
    (minutesOf t : ℤ) = ⌊t / 60⌋ - 60 * ⌊t / 3600⌋ := by
  rw [minutesOf, pyfloor_eq_floor, qdivN_eq]
  have hnn : (0 : ℚ) ≤ pymod t 3600 / ((60 : ℕ) : ℚ) :=
    div_nonneg (pymod_nonneg t 3600 (by norm_num)) (by norm_num)
  rw [Int.toNat_of_nonneg (Int.floor_nonneg.mpr hnn), pymod_eq]
  push_cast
  have he : (t - 3600 * (⌊t / 3600⌋ : ℚ)) / 60
      = t / 60 - ((60 * ⌊t / 3600⌋ : ℤ) : ℚ) := by
    push_cast
    ring
  rw [he, Int.floor_sub_int]

theorem secsOf_cast (t : ℚ) : (secsOf t : ℤ) = ⌊t⌋ - 60 * ⌊t / 60⌋ := by
  rw [secsOf, pyfloor_eq_floor]
  rw [Int.toNat_of_nonneg (Int.floor_nonneg.mpr (pymod_nonneg t 60 (by norm_num)))]
  rw [pymod_eq]
  push_cast
  have he : t - 60 * (⌊t / 60⌋ : ℚ)
      = t - ((60 * ⌊t / 60⌋ : ℤ) : ℚ) := by
    push_cast
    ring
  rw [he, Int.floor_sub_int]

theorem millisecsOf_cast (t : ℚ) :
    (millisecsOf t : ℤ) = ⌊(1000 : ℚ) * t⌋ - 1000 * ⌊t⌋ := by
  rw [millisecsOf, pyfloor_eq_floor, qmulN_eq]
  have hnn : (0 : ℚ) ≤ pymod t 1 * ((1000 : ℕ) : ℚ) :=
    mul_nonneg (pymod_nonneg t 1 (by norm_num)) (by norm_num)
  rw [Int.toNat_of_nonneg (Int.floor_nonneg.mpr hnn), pymod_eq]
  push_cast
  have he : (t - 1 * (⌊t / 1⌋ : ℚ)) * 1000
      = 1000 * t - ((1000 * ⌊t⌋ : ℤ) : ℚ) := by
    push_cast
    rw [div_one]
    ring
  rw [he, Int.floor_sub_int]

theorem encodedMs_eq (t : ℚ) (h : 0 ≤ t) :
    (encodedMs t : ℤ) = ⌊(1000 : ℚ) * t⌋ := by
  have hm : (minutesOf t : ℤ) = ⌊t / 60⌋ - 60 * ⌊t / 3600⌋ := minutesOf_cast t
  have hs : (secsOf t : ℤ) = ⌊t⌋ - 60 * ⌊t / 60⌋ := secsOf_cast t
  have hms : (millisecsOf t : ℤ) = ⌊(1000 : ℚ) * t⌋ - 1000 * ⌊t⌋ :=
    millisecsOf_cast t
  have hh : (hoursOf t : ℤ) = ⌊t / 3600⌋ := hoursOf_cast t h
  rw [encodedMs]
  push_cast
  rw [hh, hm, hs, hms]
  ring

theorem encodedMs_mono {t u : ℚ} (ht : 0 ≤ t) (htu : t ≤ u) :
    encodedMs t ≤ encodedMs u := by
  have h1 : (encodedMs t : ℤ) ≤ (encodedMs u : ℤ) := by
    rw [encodedMs_eq t ht, encodedMs_eq u (le_trans ht htu)]
    exact Int.floor_le_floor (by nlinarith)
  exact_mod_cast h1

theorem hoursOf_lt_100 (t : ℚ) (h : t < 360000) : hoursOf t < 100 := by
  rw [hoursOf, pyfloor_eq_floor, qdivN_eq]
  rw [Int.toNat_lt' (by norm_num)]
  rw [Int.floor_lt]
  push_cast
  rw [div_lt_iff₀ (by norm_num)]
  linarith

theorem minutesOf_lt_60 (t : ℚ) : minutesOf t < 60 := by
  rw [minutesOf, pyfloor_eq_floor, qdivN_eq]
  rw [Int.toNat_lt' (by norm_num)]
  rw [Int.floor_lt]
  push_cast
  rw [div_lt_iff₀ (by norm_num)]
  have := pymod_lt t 3600 (by norm_num)
  push_cast at this
  linarith

theorem secsOf_lt_60 (t : ℚ) : secsOf t < 60 := by
  rw [secsOf, pyfloor_eq_floor]
  rw [Int.toNat_lt' (by norm_num)]
  rw [Int.floor_lt]
  have := pymod_lt t 60 (by norm_num)
  push_cast at this ⊢
  linarith

theorem millisecsOf_lt_1000 (t : ℚ) : millisecsOf t < 1000 := by
  rw [millisecsOf, pyfloor_eq_floor, qmulN_eq]
  rw [Int.toNat_lt' (by norm_num)]
  rw [Int.floor_lt]
  have := pymod_lt t 1 (by norm_num)
  push_cast at this ⊢
  nlinarith

/-! ### Splitting and joining lines -/

theorem splitNl_no_newline (l : List Char) (h : '\n' ∉ l) : splitNl l = [l] := by
  induction l with
  | nil => rfl
  | cons c cs ih =>
    have hc : c ≠ '\n' := fun hc => h (hc ▸ List.mem_cons_self c cs)
    have hcs : '\n' ∉ cs := fun hm => h (List.mem_cons_of_mem c hm)
    simp only [splitNl, if_neg hc, ih hcs]

theorem splitNl_append (l r : List Char) (h : '\n' ∉ l) :
    splitNl (l ++ '\n' :: r) = l :: splitNl r := by
  induction l with
  | nil => simp [splitNl]
  | cons c cs ih =>
    have hc : c ≠ '\n' := fun hc => h (hc ▸ List.mem_cons_self c cs)
    have hcs : '\n' ∉ cs := fun hm => h (List.mem_cons_of_mem c hm)
    simp only [List.cons_append, splitNl, if_neg hc, List.append_eq]
    rw [ih hcs]

theorem splitNl_joinNl (ls : List (List Char)) (h : ls ≠ [])
    (hnl : ∀ l ∈ ls, '\n' ∉ l) : splitNl (joinNl ls) = ls := by
  induction ls with
  | nil => exact absurd rfl h
  | cons l t ih =>
    cases t with
    | nil => exact splitNl_no_newline l (hnl l (List.mem_cons_self _ _))
    | cons l2 t2 =>
      rw [joinNl, splitNl_append l _ (hnl l (List.mem_cons_self _ _))]
      rw [ih (by simp) fun x hx => hnl x (List.mem_cons_of_mem _ hx)]

/-! ### The scanning loop on rendered cues -/

theorem extract_cons_of_ne (l : List Char) (rest : List (List Char)) (h : rest ≠ []) :
    extractTextLines (l :: rest) =
      if pyStripL l = [] then extractTextLines rest
      else if isDigitsL (pyStripL l) then extractTextLines rest.tail
      else if isTimestampL (pyStripL l) then extractTextLines rest
      else pyStripL l :: extractTextLines rest := by
  cases rest with
  | nil => exact absurd rfl h
  | cons x xs => rfl

theorem extract_blank (rest : List (List Char)) :
    extractTextLines ([] :: rest) = extractTextLines rest := by
  cases rest with
  | nil => rfl
  | cons x xs => rfl

theorem isDigitsL_ne_nil {s : List Char} (h : isDigitsL s = true) : s ≠ [] := by
  intro hs
  rw [hs] at h
  exact absurd h (by decide)

theorem extract_body (body rest : List (List Char))
    (hb : ∀ b ∈ body, bodyLineWF b) :
    extractTextLines (body ++ [] :: rest) =
      body.map pyStripL ++ extractTextLines rest := by
  induction body with
  | nil => simpa using extract_blank rest
  | cons b body' ih =>
    obtain ⟨-, hne, hdig, hts⟩ := hb b (List.mem_cons_self _ _)
    have hb' : ∀ x ∈ body', bodyLineWF x := fun x hx => hb x (List.mem_cons_of_mem _ hx)
    rw [List.cons_append,
      extract_cons_of_ne b (body' ++ [] :: rest) (by simp),
      if_neg hne, hdig, if_neg (by simp), hts, if_neg (by simp), ih hb']
    rfl

theorem extract_cue (c : SrtCue) (rest : List (List Char)) (hc : cueWF c) :
    extractTextLines (cueLines c ++ rest) =
      c.body.map pyStripL ++ extractTextLines rest := by
  obtain ⟨-, hnum, -, -, -, hbody⟩ := hc
  rw [cueLines, List.cons_append, List.cons_append,
    extract_cons_of_ne _ _ (by simp),
    if_neg (isDigitsL_ne_nil hnum), hnum, if_pos rfl]
  simpa [List.append_assoc] using extract_body c.body rest hbody

theorem extract_render (cues : List SrtCue) (h : ∀ c ∈ cues, cueWF c) :
    extractTextLines (renderLines cues) =
      cues.flatMap fun c => c.body.map pyStripL := by
  induction cues with
  | nil => rfl
  | cons c t ih =>
    rw [renderLines, List.flatMap_cons, ← renderLines,
      extract_cue c _ (h c (List.mem_cons_self _ _)),
      ih fun x hx => h x (List.mem_cons_of_mem _ hx), List.flatMap_cons]

theorem renderLines_no_newline (cues : List SrtCue) (h : ∀ c ∈ cues, cueWF c) :
    ∀ l ∈ renderLines cues, '\n' ∉ l := by
  intro l hl
  rw [renderLines, List.mem_flatMap] at hl
  obtain ⟨c, hc, hlc⟩ := hl
  obtain ⟨hn, -, hts, -, -, hbody⟩ := h c hc
  rw [cueLines] at hlc
  simp only [List.mem_cons, List.mem_append, List.mem_singleton] at hlc
  rcases hlc with rfl | rfl | hb | rfl | hf
  · exact hn
  · exact hts
  · exact (hbody l hb).1
  · simp
  · simp at hf

theorem renderLines_ne_nil (cues : List SrtCue) (h : cues ≠ []) :
    renderLines cues ≠ [] := by
  cases cues with
  | nil => exact absurd rfl h
  | cons c t => simp [renderLines, cueLines]

/-! ### Decimal digit strings -/

theorem digitChar_isDigit : ∀ m, m < 10 → (Nat.digitChar m).isDigit = true := by
  decide

theorem toDigitsCore_digits (fuel : ℕ) :
    ∀ (n : ℕ) (ds : List Char), (∀ c ∈ ds, c.isDigit = true) →
      ∀ c ∈ Nat.toDigitsCore 10 fuel n ds, c.isDigit = true := by
  induction fuel with
  | zero => intro n ds hds; simpa [Nat.toDigitsCore] using hds
  | succ f ih =>
    intro n ds hds
    rw [Nat.toDigitsCore]
    have hd : (Nat.digitChar (n % 10)).isDigit = true :=
      digitChar_isDigit _ (Nat.mod_lt _ (by decide))
    have hds' : ∀ c ∈ Nat.digitChar (n % 10) :: ds, c.isDigit = true := by
      intro c hc
      rcases List.mem_cons.mp hc with rfl | hc
      · exact hd
      · exact hds c hc
    split
    · exact hds'
    · exact ih _ _ hds'

theorem toDigitsCore_ne_nil (fuel : ℕ) :
    ∀ (n : ℕ) (ds : List Char), fuel ≠ 0 ∨ ds ≠ [] →
      Nat.toDigitsCore 10 fuel n ds ≠ [] := by
  induction fuel with
  | zero =>
    intro n ds h
    rcases h with h | h
    · exact absurd rfl h
    · simpa [Nat.toDigitsCore] using h
  | succ f ih =>
    intro n ds _
    rw [Nat.toDigitsCore]
    split
    · simp
    · exact ih _ _ (Or.inr (by simp))

theorem natL_eq_toDigits (n : ℕ) : natL n = Nat.toDigits 10 n := rfl

theorem natL_digits (n : ℕ) : ∀ c ∈ natL n, c.isDigit = true := by
  rw [natL_eq_toDigits, Nat.toDigits]
  exact toDigitsCore_digits _ _ _ (by simp)

theorem natL_ne_nil (n : ℕ) : natL n ≠ [] := by
  rw [natL_eq_toDigits, Nat.toDigits]
  exact toDigitsCore_ne_nil _ _ _ (Or.inl (by simp))

theorem isDigitsL_natL (n : ℕ) : isDigitsL (natL n) = true := by
  rw [isDigitsL, Bool.and_eq_true, List.all_eq_true]
  exact ⟨by simpa using natL_ne_nil n, natL_digits n⟩

theorem pad2_digits (n : ℕ) : ∀ c ∈ pad2 n, c.isDigit = true := by
  rw [pad2]
  split
  · intro c hc
    rcases List.mem_cons.mp hc with rfl | hc
    · decide
    · exact natL_digits n c hc
  · exact natL_digits n

theorem pad3_digits (n : ℕ) : ∀ c ∈ pad3 n, c.isDigit = true := by
  rw [pad3]
  split
  · intro c hc
    rcases List.mem_cons.mp hc with rfl | hc
    · decide
    rcases List.mem_cons.mp hc with rfl | hc
    · decide
    · exact natL_digits n c hc
  split
  · intro c hc
    rcases List.mem_cons.mp hc with rfl | hc
    · decide
    · exact natL_digits n c hc
  · exact natL_digits n

theorem isSpaceC_eq_false_of_isDigit {c : Char} (h : c.isDigit = true) :
    isSpaceC c = false := by
  by_contra hb
  rw [Bool.not_eq_false] at hb
  simp only [isSpaceC, Bool.or_eq_true, beq_iff_eq] at hb
  rcases hb with ((((rfl | rfl) | rfl) | rfl) | rfl) | rfl <;> exact absurd h (by decide)

theorem commaToDot_of_isDigit {c : Char} (h : c.isDigit = true) :
    commaToDot c = c := by
  have hc : c ≠ ',' := by rintro rfl; exact absurd h (by decide)
  rw [commaToDot, if_neg hc]

set_option maxRecDepth 8192 in
theorem pad2_length : ∀ n, n < 100 → (pad2 n).length = 2 := by decide

set_option maxRecDepth 65536 in
theorem pad3_length : ∀ n, n < 1000 → (pad3 n).length = 3 := by decide

theorem pad2_chars (n : ℕ) (h : n < 100) :
    ∃ a b, pad2 n = [a, b] ∧ a.isDigit = true ∧ b.isDigit = true := by
  obtain ⟨a, b, hab⟩ := List.length_eq_two.mp (pad2_length n h)
  refine ⟨a, b, hab, ?_, ?_⟩
  · exact pad2_digits n a (by rw [hab]; exact List.mem_cons_self _ _)
  · exact pad2_digits n b (by rw [hab]; simp)

theorem pad3_chars (n : ℕ) (h : n < 1000) :
    ∃ a b c, pad3 n = [a, b, c] ∧
      a.isDigit = true ∧ b.isDigit = true ∧ c.isDigit = true := by
  obtain ⟨a, b, c, habc⟩ := List.length_eq_three.mp (pad3_length n h)
  refine ⟨a, b, c, habc, ?_, ?_, ?_⟩
  · exact pad3_digits n a (by rw [habc]; exact List.mem_cons_self _ _)
  · exact pad3_digits n b (by rw [habc]; simp)
  · exact pad3_digits n c (by rw [habc]; simp)

theorem formatTime_chars (t : ℚ) :
    ∀ c ∈ formatTime t, c.isDigit = true ∨ c = ':' ∨ c = ',' := by
  intro c hc
  rw [formatTime] at hc
  rcases List.mem_append.mp hc with h1 | h2
  · rcases List.mem_append.mp h1 with h3 | h4
    · rcases List.mem_append.mp h3 with h5 | h6
      · exact Or.inl (pad2_digits _ _ h5)
      · rcases List.mem_cons.mp h6 with rfl | h7
        · exact Or.inr (Or.inl rfl)
        · exact Or.inl (pad2_digits _ _ h7)
    · rcases List.mem_cons.mp h4 with rfl | h7
      · exact Or.inr (Or.inl rfl)
      · exact Or.inl (pad2_digits _ _ h7)
  · rcases List.mem_cons.mp h2 with rfl | h7
    · exact Or.inr (Or.inr rfl)
    · exact Or.inl (pad3_digits _ _ h7)

theorem srtStamp_chars (s : Segment) :
    ∀ c ∈ srtStamp s,
      c.isDigit = true ∨ c = ':' ∨ c = ',' ∨ c = ' ' ∨ c = '-' ∨ c = '>' := by
  intro c hc
  have hfmt : ∀ u : ℚ, c ∈ formatTime u →
      c.isDigit = true ∨ c = ':' ∨ c = ',' ∨ c = ' ' ∨ c = '-' ∨ c = '>' := by
    intro u hu
    rcases formatTime_chars u c hu with h | h | h
    · exact Or.inl h
    · exact Or.inr (Or.inl h)
    · exact Or.inr (Or.inr (Or.inl h))
  rw [srtStamp] at hc
  rcases List.mem_append.mp hc with h | hc2
  · exact hfmt _ h
  rcases List.mem_cons.mp hc2 with rfl | hc3
  · exact Or.inr (Or.inr (Or.inr (Or.inl rfl)))
  rcases List.mem_cons.mp hc3 with rfl | hc4
  · exact Or.inr (Or.inr (Or.inr (Or.inr (Or.inl rfl))))
  rcases List.mem_cons.mp hc4 with rfl | hc5
  · exact Or.inr (Or.inr (Or.inr (Or.inr (Or.inl rfl))))
  rcases List.mem_cons.mp hc5 with rfl | hc6
  · exact Or.inr (Or.inr (Or.inr (Or.inr (Or.inr rfl))))
  rcases List.mem_cons.mp hc6 with rfl | hc7
  · exact Or.inr (Or.inr (Or.inr (Or.inl rfl)))
  · exact hfmt _ hc7

theorem srtStamp_no_newline (s : Segment) : '\n' ∉ srtStamp s := by
  intro hm
  rcases srtStamp_chars s '\n' hm with h | h | h | h | h | h <;>
    exact absurd h (by decide)

theorem natL_no_newline (n : ℕ) : '\n' ∉ natL n := by
  intro hm
  exact absurd (natL_digits n '\n' hm) (by decide)

theorem dropWhile_of_head_false (p : Char → Bool) (l : List Char)
    (h : ∀ c, l.head? = some c → p c = false) : l.dropWhile p = l := by
  cases l with
  | nil => rfl
  | cons c cs =>
    rw [List.dropWhile_cons, h c rfl]
    simp

theorem pyStripL_of_no_space (l : List Char)
    (h : ∀ c ∈ l, isSpaceC c = false) : pyStripL l = l := by
  rw [pyStripL,
    dropWhile_of_head_false _ l (fun c hc => h c (by
      cases l with
      | nil => simp at hc
      | cons a t =>
        rw [List.head?_cons, Option.some_inj] at hc
        exact hc ▸ List.mem_cons_self _ _)),
    dropWhile_of_head_false _ l.reverse (fun c hc => h c (by
      rw [List.head?_reverse] at hc
      exact List.mem_of_mem_getLast? (Option.mem_def.mpr hc))),
    List.reverse_reverse]

theorem srtStamp_isTimestamp (s : Segment)
    (h1 : hoursOf s.start < 100) (h2 : hoursOf s.stop < 100) :
    isTimestampL (srtStamp s) = true := by
  obtain ⟨a1, a2, ha, ha1, ha2⟩ := pad2_chars _ h1
  obtain ⟨b1, b2, hb, hb1, hb2⟩ :=
    pad2_chars _ (Nat.lt_trans (minutesOf_lt_60 s.start) (by norm_num))
  obtain ⟨c1, c2, hc, hc1, hc2⟩ :=
    pad2_chars _ (Nat.lt_trans (secsOf_lt_60 s.start) (by norm_num))
  obtain ⟨d1, d2, d3, hd, hd1, hd2, hd3⟩ := pad3_chars _ (millisecsOf_lt_1000 s.start)
  obtain ⟨e1, e2, he, he1, he2⟩ := pad2_chars _ h2
  obtain ⟨f1, f2, hf, hf1, hf2⟩ :=
    pad2_chars _ (Nat.lt_trans (minutesOf_lt_60 s.stop) (by norm_num))
  obtain ⟨g1, g2, hg, hg1, hg2⟩ :=
    pad2_chars _ (Nat.lt_trans (secsOf_lt_60 s.stop) (by norm_num))
  obtain ⟨j1, j2, j3, hj, hj1, hj2, hj3⟩ := pad3_chars _ (millisecsOf_lt_1000 s.stop)
  rw [srtStamp]
  simp only [formatTime]
  rw [ha, hb, hc, hd, he, hf, hg, hj]
  simp only [List.append_assoc, List.cons_append, List.nil_append]
  simp [isTimestampL, ha1, ha2, hb1, hb2, hc1, hc2, hd1, hd2, hd3,
    he1, he2, hf1, hf2, hg1, hg2, hj1, hj2, hj3]

/-! ### Fixed points of the parser clean-up passes -/

theorem dropWhile_head_false (p : Char → Bool) (l : List Char) :
    ∀ c, (l.dropWhile p).head? = some c → p c = false := by
  induction l with
  | nil => intro c hc; simp [List.dropWhile] at hc
  | cons a t ih =>
    intro c hc
    rw [List.dropWhile_cons] at hc
    cases hpa : p a with
    | true => rw [hpa] at hc; simp only [if_true] at hc; exact ih c hc
    | false =>
      rw [hpa] at hc
      simp only [Bool.false_eq_true, if_false, List.head?_cons, Option.some_inj] at hc
      exact hc ▸ hpa

theorem strip_head (l : List Char) :
    ∀ c, (pyStripL l).head? = some c → isSpaceC c = false := by
  intro c hc
  rw [pyStripL, List.head?_reverse] at hc
  have hr2ne : (l.dropWhile isSpaceC).reverse.dropWhile isSpaceC ≠ [] := by
    intro hnil
    rw [hnil] at hc
    simp at hc
  obtain ⟨pre, hpre⟩ :=
    List.dropWhile_suffix (l := (l.dropWhile isSpaceC).reverse) isSpaceC
  have h1 : (l.dropWhile isSpaceC).reverse.getLast? = some c := by
    rw [← hpre, List.getLast?_append_of_ne_nil pre hr2ne]
    exact hc
  rw [List.getLast?_reverse] at h1
  exact dropWhile_head_false isSpaceC l c h1

theorem strip_last (l : List Char) :
    ∀ c, (pyStripL l).getLast? = some c → isSpaceC c = false := by
  intro c hc
  rw [pyStripL, List.getLast?_reverse] at hc
  exact dropWhile_head_false _ _ c hc

theorem pyStrip_fix_of_ends (l : List Char)
    (h1 : ∀ c, l.head? = some c → isSpaceC c = false)
    (h2 : ∀ c, l.getLast? = some c → isSpaceC c = false) : pyStripL l = l := by
  rw [pyStripL, dropWhile_of_head_false _ l h1,
    dropWhile_of_head_false _ l.reverse
      (fun c hc => h2 c (by rwa [List.head?_reverse] at hc)),
    List.reverse_reverse]

theorem pyStripL_idem (l : List Char) : pyStripL (pyStripL l) = pyStripL l :=
  pyStrip_fix_of_ends _ (strip_head l) (strip_last l)

theorem strip_fix_head (st : List Char) (hfix : pyStripL st = st) :
    ∀ c, st.head? = some c → isSpaceC c = false :=
  fun c hc => strip_head st c (by rwa [hfix])

theorem strip_fix_last (st : List Char) (hfix : pyStripL st = st) :
    ∀ c, st.getLast? = some c → isSpaceC c = false :=
  fun c hc => strip_last st c (by rwa [hfix])

theorem mem_joinSpace {c : Char} (sts : List (List Char))
    (h : c ∈ joinSpace sts) : c = ' ' ∨ ∃ st ∈ sts, c ∈ st := by
  induction sts with
  | nil => simp [joinSpace] at h
  | cons st rest ih =>
    cases rest with
    | nil => exact Or.inr ⟨st, by simp, by simpa [joinSpace] using h⟩
    | cons st2 t =>
      rw [joinSpace] at h
      rcases List.mem_append.mp h with h1 | h2
      · exact Or.inr ⟨st, List.mem_cons_self _ _, h1⟩
      rcases List.mem_cons.mp h2 with rfl | h3
      · exact Or.inl rfl
      rcases ih h3 with h4 | ⟨st', hst', hc'⟩
      · exact Or.inl h4
      · exact Or.inr ⟨st', List.mem_cons_of_mem _ hst', hc'⟩

theorem joinSpace_head (st : List Char) (rest : List (List Char)) (h : st ≠ []) :
    (joinSpace (st :: rest)).head? = st.head? := by
  cases rest with
  | nil => rfl
  | cons st2 t =>
    rw [joinSpace]
    cases st with
    | nil => exact absurd rfl h
    | cons a u => rfl

theorem joinSpace_ne_nil (st : List Char) (rest : List (List Char)) (h : st ≠ []) :
    joinSpace (st :: rest) ≠ [] := by
  intro he
  have hh := joinSpace_head st rest h
  rw [he] at hh
  cases st with
  | nil => exact absurd rfl h
  | cons a u => simp at hh

theorem joinSpace_getLast (sts : List (List Char)) (h : ∀ st ∈ sts, st ≠ [])
    (hne : sts ≠ []) :
    ∃ st ∈ sts, (joinSpace sts).getLast? = st.getLast? := by
  induction sts with
  | nil => exact absurd rfl hne
  | cons st rest ih =>
    cases rest with
    | nil => exact ⟨st, by simp, rfl⟩
    | cons st2 t =>
      obtain ⟨st', hmem', hlast⟩ :=
        ih (fun x hx => h x (List.mem_cons_of_mem _ hx)) (by simp)
      refine ⟨st', List.mem_cons_of_mem _ hmem', ?_⟩
      have hjne : joinSpace (st2 :: t) ≠ [] :=
        joinSpace_ne_nil st2 t (h st2 (by simp))
      rw [joinSpace,
        List.getLast?_append_of_ne_nil st (by simp : (' ' :: joinSpace (st2 :: t) : List Char) ≠ []),
        show (' ' :: joinSpace (st2 :: t) : List Char) = [' '] ++ joinSpace (st2 :: t) from rfl,
        List.getLast?_append_of_ne_nil [' '] hjne, hlast]

theorem noSpaceRun_joinSpace (sts : List (List Char))
    (h : ∀ st ∈ sts, st ≠ [] ∧ pyStripL st = st ∧ noSpaceRun st) :
    noSpaceRun (joinSpace sts) := by
  induction sts with
  | nil => simp [joinSpace, noSpaceRun]
  | cons st rest ih =>
    cases rest with
    | nil => simpa [joinSpace, noSpaceRun] using (h st (by simp)).2.2
    | cons st2 t =>
      obtain ⟨hne, hfix, hrun⟩ := h st (List.mem_cons_self _ _)
      have hrest := ih (fun x hx => h x (List.mem_cons_of_mem _ hx))
      rw [joinSpace, noSpaceRun, List.chain'_append]
      refine ⟨hrun, ?_, ?_⟩
      · rw [List.chain'_cons']
        refine ⟨?_, hrest⟩
        intro b hb
        have hh := joinSpace_head st2 t (h st2 (by simp)).1
        rw [Option.mem_def, hh] at hb
        have hbns := strip_fix_head st2 (h st2 (by simp)).2.1 b hb
        rintro ⟨-, hb2⟩
        rw [hbns] at hb2
        exact absurd hb2 (by decide)
      · intro x hx y hy
        have hxs := strip_fix_last st hfix x (Option.mem_def.mp hx)
        rintro ⟨hx2, -⟩
        rw [hxs] at hx2
        exact absurd hx2 (by decide)

theorem collapseAux_eq_self (l : List Char)
    (hc : ∀ c ∈ l, isSpaceC c = true → c = ' ') (hr : noSpaceRun l) :
    collapseAux false l = l := by
  induction l with
  | nil => rfl
  | cons c cs ih =>
    have hcs : ∀ x ∈ cs, isSpaceC x = true → x = ' ' :=
      fun x hx => hc x (List.mem_cons_of_mem _ hx)
    have hrcs : noSpaceRun cs := hr.tail
    cases hsp : isSpaceC c with
    | true =>
      have hstep : collapseAux false (c :: cs) = ' ' :: collapseAux true cs := by
        simp [collapseAux, hsp]
      rw [hstep, ← hc c (List.mem_cons_self _ _) hsp]
      cases cs with
      | nil => rfl
      | cons c2 cs2 =>
        have hrel := (List.chain'_cons.mp hr).1
        have hsp2 : isSpaceC c2 = false := by
          cases hsp2 : isSpaceC c2 with
          | true => exact absurd ⟨hsp, hsp2⟩ hrel
          | false => rfl
        have h1 : collapseAux true (c2 :: cs2) = c2 :: collapseAux false cs2 := by
          simp [collapseAux, hsp2]
        have h2 : collapseAux false (c2 :: cs2) = c2 :: collapseAux false cs2 := by
          simp [collapseAux, hsp2]
        rw [h1, ← h2, ih hcs hrcs]
    | false =>
      have hstep : collapseAux false (c :: cs) = c :: collapseAux false cs := by
        simp [collapseAux, hsp]
      rw [hstep, ih hcs hrcs]

theorem removePatAux_no_open (op cl : Char) :
    ∀ (fuel : ℕ) (l : List Char), (∀ c ∈ l, c ≠ op) →
      removePatAux op cl fuel l = l := by
  intro fuel
  induction fuel with
  | zero => intro l _; rfl
  | succ f ih =>
    intro l h
    cases l with
    | nil => rfl
    | cons c cs =>
      have hc : ¬(c = op) := h c (List.mem_cons_self _ _)
      simp only [removePatAux, if_neg hc]
      rw [ih cs (fun x hx => h x (List.mem_cons_of_mem _ hx))]

theorem removePat_no_open (op cl : Char) (l : List Char)
    (h : ∀ c ∈ l, c ≠ op) : removePat op cl l = l :=
  removePatAux_no_open op cl l.length l h

theorem cleanup_joinSpace (sts : List (List Char))
    (h : ∀ st ∈ sts, st ≠ [] ∧ pyStripL st = st ∧ noSpaceRun st ∧
      ∀ c ∈ st, c ≠ '<' ∧ c ≠ lbrace ∧ (isSpaceC c = true → c = ' ')) :
    pyStripL (collapseWs (removeBraces (removeTags (joinSpace sts)))) =
      joinSpace sts := by
  have hmem : ∀ c ∈ joinSpace sts,
      c ≠ '<' ∧ c ≠ lbrace ∧ (isSpaceC c = true → c = ' ') := by
    intro c hcj
    rcases mem_joinSpace sts hcj with rfl | ⟨st, hst, hcst⟩
    · exact ⟨by decide, by decide, fun _ => rfl⟩
    · exact (h st hst).2.2.2 c hcst
  rw [removeTags, removePat_no_open _ _ _ (fun c hc => (hmem c hc).1),
    removeBraces, removePat_no_open _ _ _ (fun c hc => (hmem c hc).2.1),
    collapseWs, collapseAux_eq_self _ (fun c hc => (hmem c hc).2.2)
      (noSpaceRun_joinSpace sts
        (fun st hst => ⟨(h st hst).1, (h st hst).2.1, (h st hst).2.2.1⟩))]
  cases sts with
  | nil => rfl
  | cons st rest =>
    apply pyStrip_fix_of_ends
    · intro c hcj
      rw [joinSpace_head st rest (h st (List.mem_cons_self _ _)).1] at hcj
      exact strip_fix_head st (h st (List.mem_cons_self _ _)).2.1 c hcj
    · intro c hcj
      obtain ⟨st', hmem', hlast⟩ :=
        joinSpace_getLast (st :: rest) (fun x hx => (h x hx).1) (by simp)
      rw [hlast] at hcj
      exact strip_fix_last st' (h st' hmem').2.1 c hcj

theorem map_commaToDot_of_digits (l : List Char) (h : ∀ c ∈ l, c.isDigit = true) :
    l.map commaToDot = l := by
  induction l with
  | nil => rfl
  | cons c cs ih =>
    rw [List.map_cons, commaToDot_of_isDigit (h c (List.mem_cons_self _ _)),
      ih fun x hx => h x (List.mem_cons_of_mem _ hx)]

theorem pad2_map_commaToDot (n : ℕ) : (pad2 n).map commaToDot = pad2 n :=
  map_commaToDot_of_digits _ (pad2_digits n)

theorem pad3_map_commaToDot (n : ℕ) : (pad3 n).map commaToDot = pad3 n :=
  map_commaToDot_of_digits _ (pad3_digits n)

theorem formatTime_map_commaToDot (t : ℚ) :
    (formatTime t).map commaToDot = formatTimeVtt t := by
  rw [formatTime, formatTimeVtt]
  simp only [List.map_append, List.map_cons, pad2_map_commaToDot,
    pad3_map_commaToDot]
  simp [commaToDot]

theorem srtStamp_map_commaToDot (s : Segment) :
    (srtStamp s).map commaToDot = vttStamp s := by
  rw [srtStamp, vttStamp]
  simp only [List.map_append, List.map_cons, formatTime_map_commaToDot]
  simp [commaToDot]

theorem vttCueLines_eq_srt_blocks (segs : List Segment) :
    ∀ k : ℕ, segs.flatMap vttCueLines =
      (enumFrom k segs).flatMap
        (fun p => [(srtStamp p.2).map commaToDot, pyStripL p.2.text, []]) := by
  induction segs with
  | nil => intro k; rfl
  | cons s t ih =>
    intro k
    simp only [List.flatMap_cons, enumFrom, vttCueLines]
    rw [ih (k + 1), srtStamp_map_commaToDot]

theorem parseSrtL_renderFile (cues : List SrtCue) (h : ∀ c ∈ cues, cueWF c) :
    parseSrtL (renderFile cues) = bodiesText cues := by
  cases cues with
  | nil => rfl
  | cons c t =>
    rw [parseSrtL, renderFile,
      splitNl_joinNl _ (renderLines_ne_nil _ (by simp)) (renderLines_no_newline _ h),
      extract_render _ h, bodiesText]

/-! ### The SRT write–read round trip (claim C4) -/

theorem mem_enumFrom {p : ℕ × Segment} :
    ∀ {k : ℕ} {segs : List Segment}, p ∈ enumFrom k segs → p.2 ∈ segs := by
  intro k segs
  induction segs generalizing k with
  | nil => intro h; simp [enumFrom] at h
  | cons s t ih =>
    intro h
    rw [enumFrom] at h
    rcases List.mem_cons.mp h with rfl | h2
    · exact List.mem_cons_self _ _
    · exact List.mem_cons_of_mem _ (ih h2)

theorem toSrtLines_eq_render (segs : List Segment) :
    toSrtLines segs = renderLines (srtCuesOf segs) := by
  rw [toSrtLines, srtCuesOf, renderLines]
  generalize enumFrom 1 segs = l
  induction l with
  | nil => rfl
  | cons p t ih =>
    rw [List.flatMap_cons, List.map_cons, List.flatMap_cons, ih]
    rfl

theorem bodies_srtCuesOf (segs : List Segment) :
    (srtCuesOf segs).flatMap (fun c => c.body.map pyStripL) =
      segs.map fun s => pyStripL s.text := by
  rw [srtCuesOf]
  suffices h : ∀ k, ((enumFrom k segs).map srtCueOf).flatMap
      (fun c => c.body.map pyStripL) = segs.map fun s => pyStripL s.text from h 1
  intro k
  induction segs generalizing k with
  | nil => rfl
  | cons s t ih =>
    rw [enumFrom, List.map_cons, List.flatMap_cons, ih, List.map_cons]
    simp [srtCueOf, pyStripL_idem]

theorem srtCuesOf_wf (segs : List Segment)
    (hclean : ∀ s ∈ segs, SegClean s)
    (hb : ∀ s ∈ segs, s.start < 360000 ∧ s.stop < 360000) :
    ∀ c ∈ srtCuesOf segs, cueWF c := by
  intro c hc
  rw [srtCuesOf] at hc
  obtain ⟨p, hp, rfl⟩ := List.mem_map.mp hc
  have hs : p.2 ∈ segs := mem_enumFrom hp
  obtain ⟨hne, hdig, hts, hchars, hrun⟩ := hclean p.2 hs
  obtain ⟨hb1, hb2⟩ := hb p.2 hs
  refine ⟨natL_no_newline p.1, ?_, srtStamp_no_newline p.2,
    srtStamp_isTimestamp p.2 (hoursOf_lt_100 _ hb1) (hoursOf_lt_100 _ hb2),
    by simp [srtCueOf], ?_⟩
  · show isDigitsL (pyStripL (natL p.1)) = true
    rw [pyStripL_of_no_space _
      (fun x hx => isSpaceC_eq_false_of_isDigit (natL_digits _ x hx))]
    exact isDigitsL_natL p.1
  · intro b hbmem
    simp only [srtCueOf, List.mem_singleton] at hbmem
    subst hbmem
    refine ⟨?_, ?_, ?_, ?_⟩
    · intro hmem
      exact absurd rfl (hchars '\n' hmem).1
    · rw [pyStripL_idem]; exact hne
    · rw [pyStripL_idem]; exact hdig
    · rw [pyStripL_idem]; exact hts

theorem parse_toSrt (r : TranscriptionResult)
    (hclean : ∀ s ∈ r.segments, SegClean s)
    (hb : ∀ s ∈ r.segments, s.start < 360000 ∧ s.stop < 360000) :
    parseSrtL (toSrtL r) =
      joinSpace (r.segments.map fun s => pyStripL s.text) := by
  have hwf := srtCuesOf_wf r.segments hclean hb
  rw [toSrtL, toSrtLines_eq_render,
    show joinNl (renderLines (srtCuesOf r.segments))
      = renderFile (srtCuesOf r.segments) from rfl,
    parseSrtL_renderFile _ hwf, bodiesText, bodies_srtCuesOf]
  refine cleanup_joinSpace _ ?_
  intro st hst
  obtain ⟨s, hs', rfl⟩ := List.mem_map.mp hst
  obtain ⟨hne, -, -, hchars, hrun⟩ := hclean s hs'
  exact ⟨hne, pyStripL_idem _, hrun,
    fun x hx => ⟨(hchars x hx).2.1, (hchars x hx).2.2.1, (hchars x hx).2.2.2⟩⟩

theorem chain_pairs (segs : List Segment)
    (hb : ∀ s ∈ segs, 0 ≤ s.start ∧ s.start ≤ s.stop)
    (hs : List.Chain' (fun a b => a.stop ≤ b.start) segs) :
    List.Chain' (fun p q => p.2 ≤ q.1)
      (segs.map fun s => (encodedMs s.start, encodedMs s.stop)) := by
  induction segs with
  | nil => simp
  | cons a t ih =>
    cases t with
    | nil => simp
    | cons b t2 =>
      rw [List.map_cons, List.map_cons, List.chain'_cons]
      obtain ⟨hab, hrest⟩ := List.chain'_cons.mp hs
      have ha := hb a (List.mem_cons_self _ _)
      refine ⟨encodedMs_mono (le_trans ha.1 ha.2) hab, ?_⟩
      have := ih (fun s hss => hb s (List.mem_cons_of_mem _ hss)) hrest
      rw [List.map_cons] at this
      exact this

/-! ### Registry lookups and invariants -/

theorem submitJob_self (reg : Registry) (id : String) (t : ℕ) (msg : String) :
    submitJob reg id t msg id =
      some { status := .pending, message := msg, createdAt := t,
             completedAt := none, result := none, downloadUrl := none } := by
  simp [submitJob]

theorem submitJob_other (reg : Registry) (id : String) (t : ℕ) (msg : String)
    (i : String) (h : i ≠ id) : submitJob reg id t msg i = reg i := by
  simp [submitJob, h]

theorem updateEntry_self (reg : Registry) (id : String) (f : JobEntry → JobEntry) :
    updateEntry reg id f id = (reg id).map f := by
  simp [updateEntry]

theorem updateEntry_other (reg : Registry) (id : String) (f : JobEntry → JobEntry)
    (i : String) (h : i ≠ id) : updateEntry reg id f i = reg i := by
  simp [updateEntry, h]

theorem updateEntry_dom (reg : Registry) (id : String) (f : JobEntry → JobEntry)
    (i : String) (h : reg i ≠ none) : updateEntry reg id f i ≠ none := by
  by_cases hi : i = id
  · subst hi
    rw [updateEntry_self]
    simpa [Option.map_eq_none'] using h
  · rw [updateEntry_other _ _ _ _ hi]
    exact h

theorem step_dom {s s' : Registry} (h : Step s s') :
    ∀ i, s i ≠ none → s' i ≠ none := by
  intro i hne
  cases h with
  | submit id t msg hfresh =>
    by_cases hi : i = id
    · subst hi
      rw [submitJob_self]
      simp
    · rw [submitJob_other _ _ _ _ _ hi]
      exact hne
  | start id e0 msg hlook hpend => exact updateEntry_dom _ _ _ _ hne
  | complete id e0 t r hlook hproc => exact updateEntry_dom _ _ _ _ hne
  | fail id e0 t msg hlook hproc => exact updateEntry_dom _ _ _ _ hne

theorem step_inv {s s' : Registry} (hinv : RegInv s) (hstep : Step s s') :
    RegInv s' := by
  cases hstep with
  | submit id t msg hfresh =>
    intro i e he
    by_cases hi : i = id
    · subst hi
      rw [submitJob_self] at he
      obtain rfl := Option.some.inj he
      exact ⟨fun h => by simp at h, fun _ => ⟨rfl, rfl⟩⟩
    · rw [submitJob_other _ _ _ _ _ hi] at he
      exact hinv i e he
  | start id e0 msg hlook hpend =>
    intro i e he
    by_cases hi : i = id
    · subst hi
      rw [setProcessing, updateEntry_self, hlook, Option.map_some'] at he
      obtain rfl := Option.some.inj he
      have h0 := (hinv i e0 hlook).2 (by rw [hpend]; simp)
      exact ⟨fun h => by simp at h, fun _ => by simp [h0.1, h0.2]⟩
    · rw [setProcessing, updateEntry_other _ _ _ _ hi] at he
      exact hinv i e he
  | complete id e0 t r hlook hproc =>
    intro i e he
    by_cases hi : i = id
    · subst hi
      rw [completeJob, updateEntry_self, hlook, Option.map_some'] at he
      obtain rfl := Option.some.inj he
      exact ⟨fun _ => by simp, fun h => absurd rfl h⟩
    · rw [completeJob, updateEntry_other _ _ _ _ hi] at he
      exact hinv i e he
  | fail id e0 t msg hlook hproc =>
    intro i e he
    by_cases hi : i = id
    · subst hi
      rw [failJob, updateEntry_self, hlook, Option.map_some'] at he
      obtain rfl := Option.some.inj he
      have h0 := (hinv i e0 hlook).2 (by rw [hproc]; simp)
      exact ⟨fun h => by simp at h, fun _ => by simp [h0.1, h0.2]⟩
    · rw [failJob, updateEntry_other _ _ _ _ hi] at he
      exact hinv i e he

/-! ### The downloaded-file search -/

theorem maxByCtime_eq_none {l : List (String × ℕ)} :
    maxByCtime l = none ↔ l = [] := by
  cases l <;> simp [maxByCtime]

theorem foldl_max_mem (xs : List (String × ℕ)) :
    ∀ x, xs.foldl (fun b y => if y.2 > b.2 then y else b) x ∈ x :: xs := by
  induction xs with
  | nil => intro x; simp
  | cons y ys ih =>
    intro x
    rw [List.foldl_cons]
    rcases List.mem_cons.mp (ih (if y.2 > x.2 then y else x)) with h | h
    · rw [h]
      by_cases hc : y.2 > x.2
      · rw [if_pos hc]
        exact List.mem_cons_of_mem _ (List.mem_cons_self _ _)
      · rw [if_neg hc]
        exact List.mem_cons_self _ _
    · exact List.mem_cons_of_mem _ (List.mem_cons_of_mem _ h)

theorem foldl_max_ge (xs : List (String × ℕ)) :
    ∀ x, x.2 ≤ (xs.foldl (fun b y => if y.2 > b.2 then y else b) x).2 ∧
      ∀ y ∈ xs, y.2 ≤ (xs.foldl (fun b y => if y.2 > b.2 then y else b) x).2 := by
  induction xs with
  | nil => intro x; exact ⟨le_refl _, by simp⟩
  | cons y ys ih =>
    intro x
    rw [List.foldl_cons]
    obtain ⟨h1, h2⟩ := ih (if y.2 > x.2 then y else x)
    constructor
    · refine le_trans ?_ h1
      by_cases hc : y.2 > x.2
      · rw [if_pos hc]
        exact le_of_lt hc
      · rw [if_neg hc]
    · intro z hz
      rcases List.mem_cons.mp hz with rfl | hz'
      · refine le_trans ?_ h1
        by_cases hc : z.2 > x.2
        · rw [if_pos hc]
        · rw [if_neg hc]
          exact Nat.le_of_not_lt hc
      · exact h2 z hz'

theorem maxByCtime_spec {l : List (String × ℕ)} {e : String × ℕ}
    (h : maxByCtime l = some e) : e ∈ l ∧ ∀ y ∈ l, y.2 ≤ e.2 := by
  cases l with
  | nil => cases h
  | cons x xs =>
    rw [maxByCtime] at h
    obtain rfl := Option.some.inj h
    refine ⟨foldl_max_mem xs x, ?_⟩
    intro y hy
    obtain ⟨h1, h2⟩ := foldl_max_ge xs x
    rcases List.mem_cons.mp hy with rfl | hy'
    · exact h1
    · exact h2 y hy'

theorem hasMediaExt_append {t e : String} (he : e ∈ mediaExts) :
    hasMediaExt (t ++ e) = true := by
  rw [hasMediaExt, List.any_eq_true]
  refine ⟨e, he, ?_⟩
  rw [strEndsWith, List.isSuffixOf_iff_suffix]
  show e.data <:+ (t ++ e).data
  exact List.suffix_append t.data e.data

theorem findExact_some {names : List String} {t n : String}
    (h : findExact names t = some n) : hasMediaExt n = true ∧ n ∈ names := by
  obtain ⟨e, he, hf⟩ := List.exists_of_findSome?_eq_some h
  by_cases hc : names.contains (t ++ e)
  · rw [if_pos hc] at hf
    obtain rfl := Option.some.inj hf
    exact ⟨hasMediaExt_append he, List.elem_iff.mp hc⟩
  · rw [if_neg hc] at hf
    cases hf

theorem findFuzzy_some {names : List String} {t n : String}
    (h : findFuzzy names t = some n) : hasMediaExt n = true ∧ n ∈ names := by
  have hm := List.mem_of_find?_eq_some h
  have hp := List.find?_some h
  rw [Bool.and_eq_true] at hp
  exact ⟨hp.1, hm⟩

theorem mediaFiles_ne_nil_of_name {d : List (String × ℕ)} {n : String}
    (hmem : n ∈ d.map Prod.fst) (hext : hasMediaExt n = true) :
    mediaFiles d ≠ [] := by
  obtain ⟨entry, hentry, rfl⟩ := List.mem_map.mp hmem
  exact List.ne_nil_of_mem (List.mem_filter.mpr ⟨hentry, hext⟩)

theorem joinSlash_cons_of_ne_nil (a : List Char) {xs : List (List Char)}
    (h : xs ≠ []) : joinSlash (a :: xs) = a ++ '/' :: joinSlash xs := by
  cases xs with
  | nil => exact absurd rfl h
  | cons b bs => rfl

theorem joinSlash_dropLast_append (suf : List Char) (l : List (List Char))
    (h : l ≠ []) :
    joinSlash (l.dropLast ++ [l.getLast h ++ suf]) = joinSlash l ++ suf := by
  induction l with
  | nil => exact absurd rfl h
  | cons a xs ih =>
    cases xs with
    | nil => simp [joinSlash]
    | cons b bs =>
      have hxs : b :: bs ≠ [] := by simp
      rw [List.dropLast_cons₂, List.getLast_cons hxs, List.cons_append,
        joinSlash_cons_of_ne_nil a (by simp), ih hxs]
      show a ++ '/' :: (joinSlash (b :: bs) ++ suf)
          = (a ++ '/' :: joinSlash (b :: bs)) ++ suf
      simp

theorem renderPath_of_ne_nil (b : Bool) (parts : List (List Char))
    (h : parts ≠ []) :
    renderPath ⟨b, parts⟩ =
      if b then '/' :: joinSlash parts else joinSlash parts := by
  cases parts with
  | nil => exact absurd rfl h
  | cons a xs => cases b <;> rfl

theorem parts_ne_nil_of_name {p : PyPath} (h : pyName p ≠ []) :
    p.parts ≠ [] := by
  intro hp
  rw [pyName, hp] at h
  exact h rfl

theorem pyName_eq_getLast {p : PyPath} (hp : p.parts ≠ []) :
    pyName p = p.parts.getLast hp := by
  rw [pyName, List.getLast?_eq_getLast p.parts hp, Option.getD_some]

theorem writeResult_content {r : TranscriptionResult} {s : List Char}
    {fmt : OutputFormat} {pc : List Char × List Char}
    (h : writeResult r s fmt = Except.ok pc) : pc.2 = contentFor r fmt := by
  rw [writeResult] at h
  by_cases hs : pySuffix (pyName (parsePath s)) = []
  · rw [if_pos hs] at h
    cases hw : withSuffix (parsePath s) ('.' :: extOf fmt) with
    | error e => rw [hw] at h; cases h
    | ok p2 => rw [hw] at h; cases h; rfl
  · rw [if_neg hs] at h
    cases h
    rfl

end V2T

/-- **C2.** For the transcription result whose segments are exactly
`[(0.0, 5.0, "Hello"), (5.0, 10.0, "World")]`, the SRT serialization
produces exactly two cues numbered 1 and 2, with timestamp lines
`00:00:00,000 --> 00:00:05,000` and `00:00:05,000 --> 00:00:10,000`,
each followed by its segment text (and a blank separator line). -/
theorem c2_srt_hello_world :
    V2T.toSrt V2T.helloWorldResult =
      "1\n00:00:00,000 --> 00:00:05,000\nHello\n\n2\n00:00:05,000 --> 00:00:10,000\nWorld\n" := by
  decide

/-- **C3 counterexample.** A caption file that is well-formed in the sense of
the claim (one numbered cue: an index line, a timestamp line, text lines, a
blank separator) on which the parser does **not** return the concatenation of
the cue text bodies: the body line `42` is itself all digits, so the scanner
mistakes it for a cue number and drops it together with the following text
line, returning the empty string. -/
theorem c3_counterexample :
    V2T.isDigitsL (V2T.pyStripL V2T.c3bad.numLine) = true ∧
    V2T.isTimestampL V2T.c3bad.tsLine = true ∧
    V2T.c3bad.body ≠ [] ∧
    V2T.parseSrt (V2T.renderFile [V2T.c3bad]).asString = "" ∧
    V2T.bodiesText [V2T.c3bad] = "42 is the answer".data ∧
    V2T.parseSrt (V2T.renderFile [V2T.c3bad]).asString ≠
      (V2T.bodiesText [V2T.c3bad]).asString := by
  decide

/-- **C3 (amended).** For every well-formed caption file of numbered cues
(index line; timestamp line; one or more text lines none of which is blank,
all digits, or timestamp-shaped; blank separator), the subtitle parser
returns exactly the concatenation of the cue text bodies, with cue-number
and timestamp lines removed, markup tags and brace-delimited codes stripped
and whitespace collapsed. -/
theorem c3_parse_well_formed (cues : List V2T.SrtCue)
    (h : ∀ c ∈ cues, V2T.cueWF c) :
    V2T.parseSrt (V2T.renderFile cues).asString = (V2T.bodiesText cues).asString :=
  congrArg List.asString (V2T.parseSrtL_renderFile cues h)

/-- Witness for C3 (amended): a concrete well-formed two-cue file. -/
theorem c3_parse_well_formed_witness :
    (∀ c ∈ V2T.c3good, V2T.cueWF c) ∧
    V2T.parseSrt (V2T.renderFile V2T.c3good).asString =
      (V2T.bodiesText V2T.c3good).asString :=
  ⟨by decide, c3_parse_well_formed V2T.c3good (by decide)⟩

/-- **C7 counterexample.** Erasing the `WEBVTT` header from the VTT output
and replacing the timestamp punctuation does **not** yield the SRT output:
the SRT serialization additionally contains the cue-number lines (`1`, `2`),
which have no counterpart in VTT. Shown on the result with segments
`[(0.0, 5.0, "Hello"), (5.0, 10.0, "World")]`. -/
theorem c7_counterexample :
    V2T.vttHeaderErased V2T.helloWorldResult ≠ V2T.toSrtL V2T.helloWorldResult ∧
    (V2T.vttHeaderErased V2T.helloWorldResult).asString =
      "00:00:00,000 --> 00:00:05,000\nHello\n\n00:00:05,000 --> 00:00:10,000\nWorld\n" ∧
    V2T.toSrt V2T.helloWorldResult =
      "1\n00:00:00,000 --> 00:00:05,000\nHello\n\n2\n00:00:05,000 --> 00:00:10,000\nWorld\n" := by
  decide

/-- **C7 (amended).** For every transcription result, the two caption
serializations differ only in timestamp punctuation (comma- versus
dot-separated milliseconds), the `WEBVTT` header line (plus its blank line),
and the SRT cue-number lines: the VTT line list is exactly the header
followed by the SRT cue blocks with each cue-number line removed and each
timestamp line's commas replaced by dots; the SRT line list is exactly the
numbered cue blocks. -/
theorem c7_vtt_srt_relation (r : V2T.TranscriptionResult) :
    V2T.toVttLines r.segments =
      "WEBVTT".data :: [] ::
        (V2T.enumFrom 1 r.segments).flatMap
          (fun p => [(V2T.srtStamp p.2).map V2T.commaToDot,
            V2T.pyStripL p.2.text, []]) ∧
    V2T.toSrtLines r.segments =
      (V2T.enumFrom 1 r.segments).flatMap
        (fun p => [V2T.natL p.1, V2T.srtStamp p.2, V2T.pyStripL p.2.text, []]) := by
  constructor
  · rw [V2T.toVttLines, V2T.vttCueLines_eq_srt_blocks r.segments 1]
  · rfl

/-- **C4 counterexample.** Writing the result with segments
`[(0,5,"Hello"),(5,10,"World")]` in the VTT format and reading the file back
with the repository's only caption reader (`SubtitleParser.parse_srt`) does
**not** reproduce the segment texts: the VTT header and the dot-separated
timestamp lines do not match the parser's comma-based SRT patterns and leak
into the text, so the round trip fails for the VTT caption format. -/
theorem c4_counterexample :
    V2T.parseSrt (V2T.toVtt V2T.helloWorldResult) =
      "WEBVTT 00:00:00.000 --> 00:00:05.000 Hello 00:00:05.000 --> 00:00:10.000 World" ∧
    V2T.parseSrt (V2T.toVtt V2T.helloWorldResult) ≠
      (V2T.joinSpace
        (V2T.helloWorldResult.segments.map fun s => V2T.pyStripL s.text)).asString := by
  decide

/-- **C4 (amended).** Writing a transcription result and reading the written
content back is lossless for the plain-text format (the written content is
exactly the result text); for the SRT caption format, when every segment
text (after stripping) is clean — non-blank, not all digits, not
timestamp-shaped, single-line, free of markup openers, with no whitespace
beyond single spaces — and every segment lies within the parser's
100-hour timestamp range, reading the written file back with the subtitle
parser reproduces exactly the segment texts joined by single spaces; and
when the segments are in order (each segment's start not before 0 and not
after its end, each next segment starting no earlier than the previous end),
the millisecond values encoded in the written timestamp lines are monotonic
and non-overlapping.  (The VTT format is removed from the claim: the
repository has no VTT reader, and the SRT parser does not round-trip it —
see the counterexample.) -/
theorem c4_write_read_roundtrip (r : V2T.TranscriptionResult)
    (hclean : ∀ s ∈ r.segments, V2T.SegClean s)
    (hb : ∀ s ∈ r.segments,
      0 ≤ s.start ∧ s.start ≤ s.stop ∧ s.stop < 360000)
    (hsort : List.Chain' (fun a b => a.stop ≤ b.start) r.segments) :
    V2T.contentFor r .txt = r.text ∧
    V2T.parseSrt (V2T.toSrt r) =
      (V2T.joinSpace (r.segments.map fun s => V2T.pyStripL s.text)).asString ∧
    (∀ s ∈ r.segments, V2T.encodedMs s.start ≤ V2T.encodedMs s.stop) ∧
    List.Chain' (fun p q => p.2 ≤ q.1)
      (r.segments.map fun s => (V2T.encodedMs s.start, V2T.encodedMs s.stop)) := by
  refine ⟨rfl, ?_, ?_, ?_⟩
  · exact congrArg List.asString
      (V2T.parse_toSrt r hclean (fun s hs =>
        ⟨lt_of_le_of_lt (hb s hs).2.1 (hb s hs).2.2, (hb s hs).2.2⟩))
  · intro s hs
    exact V2T.encodedMs_mono (hb s hs).1 (hb s hs).2.1
  · exact V2T.chain_pairs r.segments
      (fun s hs => ⟨(hb s hs).1, (hb s hs).2.1⟩) hsort

/-- Witness for C4 (amended): the `Hello`/`World` result satisfies every
hypothesis. -/
theorem c4_write_read_roundtrip_witness :
    ((∀ s ∈ V2T.helloWorldResult.segments, V2T.SegClean s) ∧
      (∀ s ∈ V2T.helloWorldResult.segments,
        0 ≤ s.start ∧ s.start ≤ s.stop ∧ s.stop < 360000) ∧
      List.Chain' (fun a b => a.stop ≤ b.start) V2T.helloWorldResult.segments) ∧
    V2T.parseSrt (V2T.toSrt V2T.helloWorldResult) =
      (V2T.joinSpace
        (V2T.helloWorldResult.segments.map fun s => V2T.pyStripL s.text)).asString :=
  have hchain : List.Chain' (fun a b => a.stop ≤ b.start)
      V2T.helloWorldResult.segments :=
    List.Chain.cons (by decide) List.Chain.nil
  ⟨⟨by decide, by decide, hchain⟩,
    (c4_write_read_roundtrip V2T.helloWorldResult
      (by decide) (by decide) hchain).2.1⟩

/-- **C1.** A job submitted through the REST API enters the registry with
status `pending`; along every transition of the step relation generated by
the registry operations, an entry created by that transition is `pending`,
`completed`/`failed` are only ever entered from `processing` (the background
task sets `processing` before either), `processing` is only entered from
`pending`, and no entry ever moves from a later state back to an earlier
one: the progress rank never decreases, and `completed` and `failed` are
absorbing. -/
theorem c1_job_status_lifecycle :
    (∀ (reg : V2T.Registry) (id : String) (t : ℕ) (msg : String),
      ((V2T.submitJob reg id t msg) id).map V2T.JobEntry.status =
        some V2T.JobStatus.pending) ∧
    (∀ (s s' : V2T.Registry), V2T.Step s s' →
      ∀ (i : String) (e' : V2T.JobEntry), s' i = some e' →
      (s i = none → e'.status = .pending) ∧
      (∀ e : V2T.JobEntry, s i = some e →
        V2T.statusRank e.status ≤ V2T.statusRank e'.status ∧
        (e.status = .completed → e'.status = .completed) ∧
        (e.status = .failed → e'.status = .failed) ∧
        ((e'.status = .completed ∨ e'.status = .failed) →
          e.status ≠ e'.status → e.status = .processing) ∧
        (e'.status = .processing → e.status ≠ .processing →
          e.status = .pending))) := by
  refine ⟨?_, ?_⟩
  · intro reg id t msg
    rw [V2T.submitJob_self]
    rfl
  · intro s s' hstep i e' he'
    cases hstep with
    | submit id t msg hfresh =>
      by_cases hi : i = id
      · subst hi
        rw [V2T.submitJob_self] at he'
        obtain rfl := Option.some.inj he'
        exact ⟨fun _ => rfl, fun e he => absurd he (by rw [hfresh]; simp)⟩
      · rw [V2T.submitJob_other _ _ _ _ _ hi] at he'
        refine ⟨fun hnone => (by rw [hnone] at he'; cases he'), fun e he => ?_⟩
        obtain rfl : e = e' := by rw [he] at he'; exact Option.some.inj he'
        exact ⟨le_refl _, fun h => h, fun h => h, fun _ hne => absurd rfl hne,
          fun hp hne => absurd hp hne⟩
    | start id e0 msg hlook hpend =>
      by_cases hi : i = id
      · subst hi
        rw [V2T.setProcessing, V2T.updateEntry_self, hlook, Option.map_some'] at he'
        obtain rfl := Option.some.inj he'
        refine ⟨fun hnone => (by rw [hnone] at hlook; cases hlook), fun e he => ?_⟩
        obtain rfl : e = e0 := by
          rw [he] at hlook; exact Option.some.inj hlook
        simp [hpend, V2T.statusRank]
      · rw [V2T.setProcessing, V2T.updateEntry_other _ _ _ _ hi] at he'
        refine ⟨fun hnone => (by rw [hnone] at he'; cases he'), fun e he => ?_⟩
        obtain rfl : e = e' := by rw [he] at he'; exact Option.some.inj he'
        exact ⟨le_refl _, fun h => h, fun h => h, fun _ hne => absurd rfl hne,
          fun hp hne => absurd hp hne⟩
    | complete id e0 t r hlook hproc =>
      by_cases hi : i = id
      · subst hi
        rw [V2T.completeJob, V2T.updateEntry_self, hlook, Option.map_some'] at he'
        obtain rfl := Option.some.inj he'
        refine ⟨fun hnone => (by rw [hnone] at hlook; cases hlook), fun e he => ?_⟩
        obtain rfl : e = e0 := by
          rw [he] at hlook; exact Option.some.inj hlook
        simp [hproc, V2T.statusRank]
      · rw [V2T.completeJob, V2T.updateEntry_other _ _ _ _ hi] at he'
        refine ⟨fun hnone => (by rw [hnone] at he'; cases he'), fun e he => ?_⟩
        obtain rfl : e = e' := by rw [he] at he'; exact Option.some.inj he'
        exact ⟨le_refl _, fun h => h, fun h => h, fun _ hne => absurd rfl hne,
          fun hp hne => absurd hp hne⟩
    | fail id e0 t msg hlook hproc =>
      by_cases hi : i = id
      · subst hi
        rw [V2T.failJob, V2T.updateEntry_self, hlook, Option.map_some'] at he'
        obtain rfl := Option.some.inj he'
        refine ⟨fun hnone => (by rw [hnone] at hlook; cases hlook), fun e he => ?_⟩
        obtain rfl : e = e0 := by
          rw [he] at hlook; exact Option.some.inj hlook
        simp [hproc, V2T.statusRank]
      · rw [V2T.failJob, V2T.updateEntry_other _ _ _ _ hi] at he'
        refine ⟨fun hnone => (by rw [hnone] at he'; cases he'), fun e he => ?_⟩
        obtain rfl : e = e' := by rw [he] at he'; exact Option.some.inj he'
        exact ⟨le_refl _, fun h => h, fun h => h, fun _ hne => absurd rfl hne,
          fun hp hne => absurd hp hne⟩

/-- Witness for C1: the submit-then-start steps on job `"j"`. -/
theorem c1_job_status_lifecycle_witness :
    V2T.statusRank V2T.jobEntryPending.status ≤
      V2T.statusRank V2T.jobEntryProcessing.status ∧
    (V2T.jobEntryProcessing.status = .processing →
      V2T.jobEntryPending.status ≠ .processing →
      V2T.jobEntryPending.status = .pending) := by
  have h := (c1_job_status_lifecycle.2 V2T.jobS1 V2T.jobS2
    (V2T.Step.start V2T.jobS1 "j" V2T.jobEntryPending
      "Downloading and transcribing..." rfl rfl)
    "j" V2T.jobEntryProcessing rfl).2 V2T.jobEntryPending rfl
  exact ⟨h.1, h.2.2.2.2⟩

/-- **C8.** (1) No registry operation removes an entry: an id present in
the registry stays present across every step, so entries accumulate for the
process lifetime.  (2) In every reachable registry state, an entry carries a
result payload and a download link exactly when its status is `completed`;
entries in any other state (`pending`, `processing`, `failed`) have
neither. -/
theorem c8_registry_invariants :
    (∀ (s s' : V2T.Registry), V2T.Step s s' →
      ∀ i : String, s i ≠ none → s' i ≠ none) ∧
    (∀ s : V2T.Registry, V2T.Reachable s →
      ∀ (i : String) (e : V2T.JobEntry), s i = some e →
        (e.status = .completed → e.result.isSome ∧ e.downloadUrl.isSome) ∧
        (e.status ≠ .completed → e.result = none ∧ e.downloadUrl = none)) := by
  refine ⟨fun s s' h i hne => V2T.step_dom h i hne, fun s hreach => ?_⟩
  replace hreach : Relation.ReflTransGen V2T.Step V2T.emptyRegistry s := hreach
  induction hreach with
  | refl => exact fun i e he => absurd he (by simp [V2T.emptyRegistry])
  | tail hab hstep ih => exact V2T.step_inv ih hstep

/-- Witness for C8: a present entry stays present across the start step, and
the invariant holds for the freshly submitted pending entry. -/
theorem c8_registry_invariants_witness :
    V2T.jobS2 "j" ≠ none ∧
    ((V2T.jobEntryPending.status = .completed →
        V2T.jobEntryPending.result.isSome ∧
          V2T.jobEntryPending.downloadUrl.isSome) ∧
      (V2T.jobEntryPending.status ≠ .completed →
        V2T.jobEntryPending.result = none ∧
          V2T.jobEntryPending.downloadUrl = none)) := by
  refine ⟨?_, ?_⟩
  · exact c8_registry_invariants.1 V2T.jobS1 V2T.jobS2
      (V2T.Step.start V2T.jobS1 "j" V2T.jobEntryPending
        "Downloading and transcribing..." rfl rfl) "j" (by decide)
  · exact c8_registry_invariants.2 V2T.jobS1
      (Relation.ReflTransGen.single
        (V2T.Step.submit V2T.emptyRegistry "j" 0 "Job created" rfl))
      "j" V2T.jobEntryPending rfl

/-- **C5.** Exceptions inside a background job are caught at the
job-execution boundary and never re-raised (both task bodies are total
functions into a new registry, respectively a list of file operations): on
any error, the API task sets the job's entry to status `failed` with the
exception text as the entry's message (leaving creation time, result and
link fields as they were), and the minimal CLI variant writes the exception
text to `results/<job_id>.error` before cleaning up the video file. -/
theorem c5_errors_caught :
    (∀ (reg : V2T.Registry) (id : String) (t : ℕ) (e0 : V2T.JobEntry)
        (msg : String), reg id = some e0 →
      (V2T.runUrlJob reg id t (Except.error msg)) id =
        some { status := .failed, message := msg, createdAt := e0.createdAt,
               completedAt := some t, result := e0.result,
               downloadUrl := e0.downloadUrl }) ∧
    (∀ jobId videoPath msg : String,
      V2T.processVideo jobId videoPath (Except.error msg) =
        [V2T.saveError jobId msg, V2T.FsOp.removeFile videoPath]) := by
  refine ⟨?_, fun jobId videoPath msg => rfl⟩
  intro reg id t e0 msg hreg
  simp [V2T.runUrlJob, V2T.failJob, V2T.setProcessing, V2T.updateEntry, hreg]

/-- Witness for C5: a failing job over the freshly submitted registry. -/
theorem c5_errors_caught_witness :
    V2T.runUrlJob V2T.jobS1 "j" 1 (Except.error "boom") "j" =
      some { status := .failed, message := "boom", createdAt := 0,
             completedAt := some 1, result := none, downloadUrl := none } ∧
    V2T.processVideo "j" "video.mp4" (Except.error "boom") =
      [V2T.saveError "j" "boom", V2T.FsOp.removeFile "video.mp4"] :=
  ⟨c5_errors_caught.1 V2T.jobS1 "j" 1 V2T.jobEntryPending "boom" rfl,
    c5_errors_caught.2 "j" "video.mp4" "boom"⟩

/-- **C9.** `update_config` replaces the process-wide configuration
wholesale with a new object in which every option named in the call has its
new value and every option not named keeps its previous value, and a
subsequent `get_config` returns exactly this new object. -/
theorem c9_config_update (c : V2T.AppConfig) (u : V2T.ConfigUpdate) :
    V2T.getConfig (V2T.updateConfig c u) = V2T.updateConfig c u ∧
    ((∀ v, u.transcription = some v → (V2T.updateConfig c u).transcription = v) ∧
      (u.transcription = none →
        (V2T.updateConfig c u).transcription = c.transcription)) ∧
    ((∀ v, u.download = some v → (V2T.updateConfig c u).download = v) ∧
      (u.download = none → (V2T.updateConfig c u).download = c.download)) ∧
    ((∀ v, u.tempDir = some v → (V2T.updateConfig c u).tempDir = v) ∧
      (u.tempDir = none → (V2T.updateConfig c u).tempDir = c.tempDir)) ∧
    ((∀ v, u.logLevel = some v → (V2T.updateConfig c u).logLevel = v) ∧
      (u.logLevel = none → (V2T.updateConfig c u).logLevel = c.logLevel)) ∧
    ((∀ v, u.maxWorkers = some v → (V2T.updateConfig c u).maxWorkers = v) ∧
      (u.maxWorkers = none →
        (V2T.updateConfig c u).maxWorkers = c.maxWorkers)) := by
  refine ⟨rfl, ⟨?_, ?_⟩, ⟨?_, ?_⟩, ⟨?_, ?_⟩, ⟨?_, ?_⟩, ⟨?_, ?_⟩⟩ <;>
    first
      | (intro v hv; simp [V2T.updateConfig, hv])
      | (intro hv; simp [V2T.updateConfig, hv])

/-- **C6 counterexample.** The claim's locate-order and its
raise-exactly-when condition do not hold for every download: the minimal
CLI downloader (`src/downloader.py`) matches only on the fixed prefix
`temp_video.` — on a directory containing just `video.mp4` it raises
`FileNotFoundError` even though a file with a known media extension
exists. -/
theorem c6_counterexample :
    V2T.downloadVideoFind ["video.mp4"] =
      Except.error "Video file not found after download." ∧
    V2T.hasMediaExt "video.mp4" = true :=
  ⟨rfl, by decide⟩

/-- **C6 (amended).** For `VideoDownloader._find_downloaded_file`: the
produced file is located by trying, in order, exact filename match on the
title plus a known media extension, then fuzzy lowercase-substring match of
the title among files with a known media extension, then the earliest
listed file with maximal creation time among those with a known media
extension; and a `FileNotFoundError` is raised exactly when no file with a
known media extension exists in the output directory.  The minimal CLI
variant instead returns the first file whose name starts with
`temp_video.` and raises exactly when there is none. -/
theorem c6_find_downloaded_file (d : List (String × ℕ)) (p t : String) :
    ((∃ msg, V2T.findDownloadedFile d p t = Except.error msg) ↔
      V2T.mediaFiles d = []) ∧
    (∀ n, V2T.findExact (d.map Prod.fst) t = some n →
      V2T.findDownloadedFile d p t = Except.ok (V2T.pathJoin p n)) ∧
    (V2T.findExact (d.map Prod.fst) t = none →
      ∀ n, V2T.findFuzzy (d.map Prod.fst) t = some n →
      V2T.findDownloadedFile d p t = Except.ok (V2T.pathJoin p n)) ∧
    (V2T.findExact (d.map Prod.fst) t = none →
      V2T.findFuzzy (d.map Prod.fst) t = none →
      ∀ e, V2T.maxByCtime (V2T.mediaFiles d) = some e →
        V2T.findDownloadedFile d p t = Except.ok (V2T.pathJoin p e.1) ∧
        e ∈ V2T.mediaFiles d ∧ ∀ y ∈ V2T.mediaFiles d, y.2 ≤ e.2) ∧
    (∀ names : List String,
      ((∃ msg, V2T.downloadVideoFind names = Except.error msg) ↔
        ∀ n ∈ names, V2T.strStartsWith n "temp_video." = false)) := by
  refine ⟨⟨?_, ?_⟩, ?_, ?_, ?_, ?_⟩
  · rintro ⟨msg, herr⟩
    rw [V2T.findDownloadedFile] at herr
    cases hex : V2T.findExact (d.map Prod.fst) t with
    | some n => rw [hex] at herr; cases herr
    | none =>
      rw [hex] at herr
      cases hfz : V2T.findFuzzy (d.map Prod.fst) t with
      | some n => rw [hfz] at herr; cases herr
      | none =>
        rw [hfz] at herr
        cases hmx : V2T.maxByCtime (V2T.mediaFiles d) with
        | some e => rw [hmx] at herr; cases herr
        | none => exact V2T.maxByCtime_eq_none.mp hmx
  · intro hmf
    have hex : V2T.findExact (d.map Prod.fst) t = none := by
      cases hex : V2T.findExact (d.map Prod.fst) t with
      | none => rfl
      | some n =>
        obtain ⟨hext, hmem⟩ := V2T.findExact_some hex
        exact absurd hmf (V2T.mediaFiles_ne_nil_of_name hmem hext)
    have hfz : V2T.findFuzzy (d.map Prod.fst) t = none := by
      cases hfz : V2T.findFuzzy (d.map Prod.fst) t with
      | none => rfl
      | some n =>
        obtain ⟨hext, hmem⟩ := V2T.findFuzzy_some hfz
        exact absurd hmf (V2T.mediaFiles_ne_nil_of_name hmem hext)
    refine ⟨"Downloaded file not found in " ++ p, ?_⟩
    rw [V2T.findDownloadedFile, hex, hfz, hmf]
    rfl
  · intro n hex
    rw [V2T.findDownloadedFile, hex]
  · intro hex n hfz
    rw [V2T.findDownloadedFile, hex, hfz]
  · intro hex hfz e hmx
    refine ⟨?_, (V2T.maxByCtime_spec hmx).1, (V2T.maxByCtime_spec hmx).2⟩
    rw [V2T.findDownloadedFile, hex, hfz, hmx]
  · intro names
    constructor
    · rintro ⟨msg, herr⟩ n hn
      rw [V2T.downloadVideoFind] at herr
      cases hfind : names.find? (fun n => V2T.strStartsWith n "temp_video.") with
      | some m => rw [hfind] at herr; cases herr
      | none =>
        have := List.find?_eq_none.mp hfind n hn
        cases hsw : V2T.strStartsWith n "temp_video." with
        | false => rfl
        | true => exact absurd hsw this
    · intro hall
      refine ⟨"Video file not found after download.", ?_⟩
      rw [V2T.downloadVideoFind, List.find?_eq_none.mpr ?_]
      intro n hn
      rw [hall n hn]
      simp

/-- Witness for C6 (amended): an exact-match directory, and the minimal
variant raising on a prefix-free listing. -/
theorem c6_find_downloaded_file_witness :
    V2T.findDownloadedFile V2T.c6dir "dl" "video" =
      Except.ok (V2T.pathJoin "dl" "video.mp4") ∧
    (∃ msg, V2T.downloadVideoFind ["readme.txt"] = Except.error msg) := by
  have h := c6_find_downloaded_file V2T.c6dir "dl" "video"
  exact ⟨h.2.1 "video.mp4" (by decide), (h.2.2.2.2 ["readme.txt"]).mpr (by decide)⟩

/-- Witness for C9: updating `temp_dir` and `max_workers` changes exactly
those options. -/
theorem c9_config_update_witness :
    (V2T.updateConfig V2T.sampleConfig V2T.sampleUpdate).tempDir = "./newtemp" ∧
    (V2T.updateConfig V2T.sampleConfig V2T.sampleUpdate).maxWorkers = 8 ∧
    (V2T.updateConfig V2T.sampleConfig V2T.sampleUpdate).logLevel =
      V2T.sampleConfig.logLevel := by
  have h := c9_config_update V2T.sampleConfig V2T.sampleUpdate
  exact ⟨h.2.2.2.1.1 "./newtemp" rfl, h.2.2.2.2.2.1 8 rfl, h.2.2.2.2.1.2 rfl⟩

/-- **C10 counterexample.** The claim's path-no-extension branch does not
hold for every output path: `Path(".")` has no filename extension, yet
`write_result` does not write to `"." + ".txt"` — `Path.with_suffix` raises
`ValueError` because the path has an empty name, so nothing is written at
all. -/
theorem c10_counterexample :
    V2T.pySuffix (V2T.pyName (V2T.parsePath ".".data)) = [] ∧
    V2T.writeResult V2T.helloWorldResult ".".data V2T.OutputFormat.txt =
      Except.error "with_suffix: empty name".data :=
  ⟨rfl, rfl⟩

/-- **C10 (amended).** For every output path whose `pathlib` name is
non-empty and which is already in normalized form (rendering its parsed form
reproduces the given string): if the path has no filename extension the file
is written at the given path with a dot and the requested format's extension
appended; if the path already has any extension the file is written at
exactly the given path, even when that extension does not match the
requested format; and in every successful write the content depends only on
the result and the requested format, never on the path.  Paths with an empty
name (such as `.`, `/`, or an empty string) instead raise `ValueError` from
`Path.with_suffix`. -/
theorem c10_write_result (r : V2T.TranscriptionResult) (s : List Char)
    (fmt : V2T.OutputFormat)
    (hname : V2T.pyName (V2T.parsePath s) ≠ [])
    (hnorm : V2T.renderPath (V2T.parsePath s) = s) :
    (V2T.pySuffix (V2T.pyName (V2T.parsePath s)) = [] →
      V2T.writeResult r s fmt =
        Except.ok (s ++ '.' :: V2T.extOf fmt, V2T.contentFor r fmt)) ∧
    (V2T.pySuffix (V2T.pyName (V2T.parsePath s)) ≠ [] →
      V2T.writeResult r s fmt = Except.ok (s, V2T.contentFor r fmt)) ∧
    (∀ s' pc pc', V2T.writeResult r s fmt = Except.ok pc →
      V2T.writeResult r s' fmt = Except.ok pc' → pc.2 = pc'.2) := by
  have hp : (V2T.parsePath s).parts ≠ [] := V2T.parts_ne_nil_of_name hname
  refine ⟨?_, ?_, ?_⟩
  · intro hsuf
    have hparts2 : (V2T.parsePath s).parts.dropLast
        ++ [V2T.pyName (V2T.parsePath s) ++ '.' :: V2T.extOf fmt] ≠ [] := by
      simp
    have hr : V2T.renderPath ⟨(V2T.parsePath s).absR,
        (V2T.parsePath s).parts.dropLast
          ++ [V2T.pyName (V2T.parsePath s) ++ '.' :: V2T.extOf fmt]⟩
        = s ++ '.' :: V2T.extOf fmt := by
      rw [V2T.renderPath_of_ne_nil _ _ hparts2, V2T.pyName_eq_getLast hp,
        V2T.joinSlash_dropLast_append ('.' :: V2T.extOf fmt) _ hp]
      rw [V2T.renderPath_of_ne_nil _ _ hp] at hnorm
      cases hb : (V2T.parsePath s).absR with
      | false =>
        rw [hb] at hnorm
        simp only [Bool.false_eq_true, if_false] at hnorm ⊢
        rw [hnorm]
      | true =>
        rw [hb] at hnorm
        simp only [if_true] at hnorm ⊢
        show ('/' :: V2T.joinSlash (V2T.parsePath s).parts) ++ '.' :: V2T.extOf fmt
            = s ++ '.' :: V2T.extOf fmt
        rw [hnorm]
    rw [V2T.writeResult, if_pos hsuf, V2T.withSuffix, if_neg hname, hsuf,
      List.length_nil, Nat.sub_zero, List.take_length]
    exact congrArg (fun q => Except.ok (q, V2T.contentFor r fmt)) hr
  · intro hsuf
    rw [V2T.writeResult, if_neg hsuf, hnorm]
  · intro s' pc pc' hpc hpc'
    rw [V2T.writeResult_content hpc, V2T.writeResult_content hpc']

/-- Witness for C10 (amended): a normalized extension-free path gets the
format extension appended and the plain-text content written. -/
theorem c10_write_result_witness :
    V2T.pyName (V2T.parsePath "out/result".data) ≠ [] ∧
    V2T.renderPath (V2T.parsePath "out/result".data) = "out/result".data ∧
    V2T.writeResult V2T.helloWorldResult "out/result".data V2T.OutputFormat.txt =
      Except.ok ("out/result.txt".data, V2T.helloWorldResult.text) := by
  have h := c10_write_result V2T.helloWorldResult "out/result".data
    V2T.OutputFormat.txt (by decide) (by decide)
  exact ⟨by decide, by decide, (h.1 (by decide)).trans (by rfl)⟩
